import Mathlib

/-!
Verification development for the terraform-gen schema generator core.

The Go sources are shallowly embedded:
  - Go strings are modelled as lists of characters (GoStr);
  - reflect.Type values are modelled by the inductive GoType, whose
    constructors correspond to the reflect.Kind cases the generator
    distinguishes (a representative subset of the integer/float kinds);
  - Go maps are modelled as association lists whose insert operation
    replaces an existing binding in place (Go map assignment);
  - the mutable GenFieldState passed to filters is modelled by explicit
    state passing, a filter being a pure function from state to
    (error or updated state);
  - unbounded recursion (filters may redirect a field type to an
    arbitrary type, so the walk need not terminate) is made total with
    an explicit fuel parameter; a result of none means the recursion
    depth was exhausted (the Go program would not have returned either).
    All definitions are structurally recursive so that they evaluate.
-/

set_option maxRecDepth 8000

namespace TerraformGen

/-- Go strings, modelled as lists of characters. -/
abbrev GoStr := List Char

/-- Literal helper: a Lean string literal as a GoStr. -/
def str (s : String) : GoStr := s.toList

/-- ASCII upper-case test, the character class written A-Z in the
Underscore regular expression of internal/util. -/
def isUpperAZ (c : Char) : Bool := 'A' ≤ c && c ≤ 'Z'

/-- Modelled from internal/util.Underscore: its regular expression
(caret [^A-Z]* or [A-Z]*)([A-Z][^A-Z]+ or dollar) is applied repeatedly by
FindAllStringSubmatch with leftmost-first (Perl-style) semantics; group
one is the longest non-capital prefix at the start of the text (or a run
of capitals elsewhere, backtracked so that the last capital of the run
can start group two), group two is a capital followed by at least one
non-capital, or the empty match at the end of the text. Where no match
is possible the scan advances one character. underscoreWords collects
the groups of every match, in order; atStart tells whether the anchored
first alternative of group one is available. Every step consumes at
least one character, so fuel equal to the length of the text suffices. -/
def underscoreWords : Nat → List Char → Bool → List GoStr
  | 0, _, _ => []
  | _ + 1, [], _ => []
  | n + 1, c :: cs, atStart =>
    if atStart && !isUpperAZ c then
      -- group one, first alternative: maximal run of non-capitals at the anchor
      let g1 := c :: cs.takeWhile (fun d => !isUpperAZ d)
      match cs.dropWhile (fun d => !isUpperAZ d) with
      | [] => [g1]                       -- group two matched the end of text
      | d :: ds =>
        -- d is a capital; group two needs at least one non-capital after it
        let r := ds.takeWhile (fun e => !isUpperAZ e)
        if r.length > 0 then
          g1 :: (d :: r) :: underscoreWords n (ds.dropWhile (fun e => !isUpperAZ e)) false
        else
          -- group two cannot match: no match at this position, the scan
          -- advances until the capital run starting at d
          underscoreWords n (d :: ds) false
    else if isUpperAZ c then
      -- group one, second alternative: a run of capitals
      let u := c :: cs.takeWhile isUpperAZ
      match cs.dropWhile isUpperAZ with
      | [] => [u]                        -- group one took the run, $ matched
      | d :: ds =>
        -- backtrack: group one keeps all but the last capital, group two is
        -- that capital followed by the (non-empty) non-capital run at d
        let r := d :: ds.takeWhile (fun e => !isUpperAZ e)
        u.dropLast :: (u.getLast (by simp) :: r)
          :: underscoreWords n (ds.dropWhile (fun e => !isUpperAZ e)) false
    else
      -- not at the anchor and no capital: no match here, advance one character
      underscoreWords n cs false

/-- strings.Join with the underscore separator. -/
def joinUnderscore : List GoStr → GoStr
  | [] => []
  | [w] => w
  | w :: ws => w ++ '_' :: joinUnderscore ws

/-- internal/util.Underscore: split a camel/Pascal-case identifier into
words, join them with underscores and lower-case the result. Only
non-empty submatch groups are collected as words by the Go loop. -/
def underscore (name : GoStr) : GoStr :=
  (joinUnderscore ((underscoreWords name.length name true).filter
    (fun w => w ≠ []))).map Char.toLower

theorem underscore_examples :
    underscore (str "StringField") = str "string_field" ∧
    underscore (str "Foo") = str "foo" ∧
    underscore (str "A") = str "a" ∧
    underscore (str "teST") = str "st" ∧
    underscore (str "testSchemaGeneratorNestedBase")
      = str "test_schema_generator_nested_base" := by
  refine ⟨?_, ?_, ?_, ?_, ?_⟩ <;> rfl

/-! ## Go types (reflect.Type / reflect.Kind) -/

/-- A model of the reflect.Type values the generator distinguishes.
Structs carry a package path, a name and a field list (field name and
field type); the integer and floating kinds are represented by the
variants actually exercised by the repository (the remaining integer
kinds behave identically in typeFor). tInterface stands for any kind
typeFor cannot classify. -/
inductive GoType : Type where
  | tInt : GoType
  | tInt64 : GoType
  | tUint : GoType
  | tFloat32 : GoType
  | tFloat64 : GoType
  | tString : GoType
  | tBool : GoType
  | tInterface : GoType
  | tPtr : GoType → GoType
  | tSlice : GoType → GoType
  | tMap : GoType → GoType → GoType
  | tStruct : GoStr → GoStr → List (GoStr × GoType) → GoType

/-- internal/util.DereferencePtrType. -/
def dereferencePtrType : GoType → GoType
  | .tPtr e => dereferencePtrType e
  | t => t

/-- reflect.Kind.String() for the modelled kinds. -/
def kindString : GoType → GoStr
  | .tInt => str "int"
  | .tInt64 => str "int64"
  | .tUint => str "uint"
  | .tFloat32 => str "float32"
  | .tFloat64 => str "float64"
  | .tString => str "string"
  | .tBool => str "bool"
  | .tInterface => str "interface"
  | .tPtr _ => str "ptr"
  | .tSlice _ => str "slice"
  | .tMap _ _ => str "map"
  | .tStruct _ _ _ => str "struct"

/-- reflect.Type.Name(): non-empty only for named (here: struct and
predeclared) types. -/
def goTypeName : GoType → GoStr
  | .tInt => str "int"
  | .tInt64 => str "int64"
  | .tUint => str "uint"
  | .tFloat32 => str "float32"
  | .tFloat64 => str "float64"
  | .tString => str "string"
  | .tBool => str "bool"
  | .tInterface => []
  | .tPtr _ => []
  | .tSlice _ => []
  | .tMap _ _ => []
  | .tStruct _ n _ => n

/-- reflect.Type.String(): the Go notation of the type; a named struct
prints as package.Name. -/
def goTypeString : GoType → GoStr
  | .tInt => str "int"
  | .tInt64 => str "int64"
  | .tUint => str "uint"
  | .tFloat32 => str "float32"
  | .tFloat64 => str "float64"
  | .tString => str "string"
  | .tBool => str "bool"
  | .tInterface => str "interface \x7b\x7d"
  | .tPtr e => '*' :: goTypeString e
  | .tSlice e => str "[]" ++ goTypeString e
  | .tMap k v => str "map[" ++ goTypeString k ++ ']' :: goTypeString v
  | .tStruct p n _ => if p = [] then n else p ++ '.' :: n

/-- The fields of a struct type (reflect NumField/Field); non-struct
types have none (reflect would panic, which the generator never
triggers on its own: only a filter redirecting a field to a non-struct
collection element could, and that situation does not arise here). -/
def structFields : GoType → List (GoStr × GoType)
  | .tStruct _ _ fs => fs
  | _ => []

/-! ## The target schema vocabulary (helper/schema, external collaborator) -/

/-- helper/schema.ValueType, in declaration order. -/
inductive ValueType : Type where
  | typeInvalid : ValueType
  | typeBool : ValueType
  | typeInt : ValueType
  | typeFloat : ValueType
  | typeString : ValueType
  | typeList : ValueType
  | typeMap : ValueType
  | typeSet : ValueType
deriving DecidableEq

/-- ValueType.String() of helper/schema. -/
def valueTypeName : ValueType → GoStr
  | .typeInvalid => str "TypeInvalid"
  | .typeBool => str "TypeBool"
  | .typeInt => str "TypeInt"
  | .typeFloat => str "TypeFloat"
  | .typeString => str "TypeString"
  | .typeList => str "TypeList"
  | .typeMap => str "TypeMap"
  | .typeSet => str "TypeSet"

/-- schemagen.typeFor: convert a reflect.Kind (the head constructor of
the dereferenced type) into a schema.ValueType. The source receives the
kind and the type separately; the kind is always the kind of the type
argument, so the model takes the type alone. -/
def typeFor : GoType → ValueType
  | .tInt => .typeInt
  | .tInt64 => .typeInt
  | .tUint => .typeInt
  | .tFloat32 => .typeFloat
  | .tFloat64 => .typeFloat
  | .tString => .typeString
  | .tBool => .typeBool
  | .tSlice e =>
    -- a slice of primitives is more likely to be ordered, a slice of
    -- complex values more likely to be unique
    if typeFor e ≠ .typeList then .typeList else .typeSet
  | .tMap _ _ => .typeMap
  | .tStruct _ _ _ => .typeList
  | _ => .typeInvalid

/-- A Go primitive value, as storable in schema.Schema.Default
(an interface-typed attribute). -/
inductive GoPrim : Type where
  | pInt : Int → GoPrim
  | pString : GoStr → GoPrim
  | pBool : Bool → GoPrim

/-- The descriptive attributes of helper/schema.Schema, in the struct's
declaration order, minus the element specification (Elem) which is the
recursive part, carried alongside (see GoSchema). Of the fields the
serializer has no printing case for, one function-valued attribute
(diffSuppressFunc, modelled as a presence flag) and one string-slice
attribute (conflictsWith) are kept as representatives; the serializer
skips every function field and prints nothing for slice-valued fields
without a case. -/
structure SchemaAttrs : Type where
  typ : ValueType
  optional : Bool
  required : Bool
  diffSuppressFunc : Bool
  defaultVal : Option GoPrim
  description : GoStr
  inputDefault : GoStr
  computed : Bool
  forceNew : Bool
  maxItems : Nat
  minItems : Nat
  conflictsWith : List GoStr
  deprecated : GoStr
  removed : GoStr
  sensitive : Bool

/-- The element specification stored in schema.Schema.Elem: either a
scalar element schema (the generator only ever sets its Type, and the
serializer only ever reads it) or a nested resource carrying a full
nested schema mapping. -/
inductive ElemSpec : Type where
  | elemSchema : ValueType → ElemSpec
  | elemResource : List (GoStr × SchemaAttrs × Option ElemSpec) → ElemSpec

/-- A schema.Schema value: descriptive attributes plus the optional
element specification. -/
abbrev GoSchema := SchemaAttrs × Option ElemSpec

/-- map[string]*schema.Schema. -/
abbrev SchemaMap := List (GoStr × GoSchema)

/-- The zero value schema.Schema of a fresh field. -/
def emptySchema : GoSchema :=
  (⟨.typeInvalid, false, false, false, none, [], [], false, false, 0, 0,
    [], [], [], false⟩, none)

/-! ## Metadata model -/

/-- reflect.StructField: name and declared type. -/
abbrev StructField := GoStr × GoType

/-- schemagen.genMetaResource: the subject type of a (sub)derivation and
the metadata mapping parallel to its schema mapping. The mapping stores
possibly-nil pointers to genMetaSchema values: an entry value of none is
a nil pointer (the promote merge copies map reads that may miss). A
genMetaSchema is the pair of the field descriptor and the optional
nested resource (its Elem). -/
inductive GenMetaResource : Type where
  | mk : GoType → List (GoStr × Option (StructField × Option GenMetaResource)) → GenMetaResource

/-- schemagen.genMetaSchema: Field and Elem. -/
abbrev GenMetaSchema := StructField × Option GenMetaResource

/-- map[string]*genMetaSchema. -/
abbrev MetaMap := List (GoStr × Option GenMetaSchema)

def GenMetaResource.type : GenMetaResource → GoType
  | .mk t _ => t

def GenMetaResource.schema : GenMetaResource → MetaMap
  | .mk _ s => s

/-! ## Association list helpers (Go maps) -/

/-- Whether a Go map holds a key. -/
def containsKey (m : List (GoStr × α)) (k : GoStr) : Bool :=
  m.any (fun p => p.1 = k)

/-- Go map read: the value stored at a key. -/
def lookupKey (k : GoStr) : List (GoStr × α) → Option α
  | [] => none
  | (k', v) :: rest => if k = k' then some v else lookupKey k rest

/-- Go map assignment: replace the binding if the key is present,
append a new one otherwise. -/
def mapInsert (m : List (GoStr × α)) (k : GoStr) (v : α) : List (GoStr × α) :=
  if containsKey m k then
    m.map (fun p => if p.1 = k then (k, v) else p)
  else
    m ++ [(k, v)]

/-- The keys of a Go map, in insertion order. -/
def keysOf (m : List (GoStr × α)) : List GoStr := m.map (·.1)

/-! ## Generation state and filters -/

/-- schemagen.Action. -/
inductive Action : Type where
  | actionDefault : Action
  | actionSkip : Action
  | actionPromote : Action
deriving DecidableEq

/-- schemagen.GenFieldState: the state of an in-progress generation for
a single field. The Go value holds pointers (CurrentField,
CurrentSchema); filters mutate it in place, modelled by returning an
updated value. -/
structure GenFieldState : Type where
  currentName : GoStr
  currentField : StructField
  currentSchema : GoSchema
  action : Action

/-- new(GenFieldState): the zero value. CurrentField and CurrentSchema
are nil pointers in Go, never read before being assigned in the first
loop iteration; they are modelled by placeholders. -/
def initialGenFieldState : GenFieldState :=
  ⟨[], ([], .tInterface), emptySchema, .actionDefault⟩

/-- schemagen.FilterFunc, as a pure transformer: in Go the filter
mutates the state it is handed and returns an optional error. -/
abbrev FilterFunc := GenFieldState → Except GoStr GenFieldState

/-- Invoke the filter when one is configured (g.FilterFunc != nil). -/
def applyFilter (flt : Option FilterFunc) (st : GenFieldState) :
    Except GoStr GenFieldState :=
  match flt with
  | some f => f st
  | none => .ok st

/-- The per-iteration re-initialization of the shared state: the walker
assigns CurrentField, CurrentName and a fresh empty CurrentSchema; the
Action field is not reassigned. -/
def resetState (st : GenFieldState) (f : StructField) : GenFieldState :=
  { st with currentField := f, currentName := underscore f.1,
            currentSchema := emptySchema }

/-! ## The schema derivation walker (schemagen.schemaFromStruct) -/

/-- The result triple of schemaFromStruct: the schema mapping, the
metadata resource, and the optional error (all three are returned
together in Go, the mapping being partial when the error is set). -/
abbrev SFSResult := SchemaMap × GenMetaResource × Option GoStr

/-- Outcome of one iteration of the field loop: abort returns from the
whole derivation carrying the accumulated mapping and the error; next
continues with the carried-over state and accumulators. -/
inductive StepRes : Type where
  | abort : SchemaMap → MetaMap → GoStr → StepRes
  | next : GenFieldState → SchemaMap → MetaMap → StepRes

/-- The collision error text (the Go message via fmt.Errorf is
key %q conflicts with key already in the schema. Data: %#v; the
trailing Go-syntax dump of the schema datum is elided in the model). -/
def conflictMsg (k : GoStr) : GoStr :=
  str "key \"" ++ k ++ str "\" conflicts with key already in the schema"

/-- The promote merge loop: for every entry of the nested mapping, a key
already present in either accumulator is an immediate error; otherwise
the schema entry and the (possibly missing, hence possibly nil) nested
metadata entry are copied up. -/
def promoteMerge : SchemaMap → GenMetaResource → SchemaMap → MetaMap →
    Except (SchemaMap × MetaMap × GoStr) (SchemaMap × MetaMap)
  | [], _, flds, metaS => .ok (flds, metaS)
  | (k, v) :: rest, m, flds, metaS =>
    if containsKey flds k || containsKey metaS k then
      .error (flds, metaS, conflictMsg k)
    else
      promoteMerge rest m (mapInsert flds k v)
        (mapInsert metaS k ((lookupKey k m.schema).getD none))

/-- The commit at the end of an iteration: only fields with a non-empty
current name are written into the mapping and the metadata. -/
def commitField (st : GenFieldState) (cs : GoSchema) (flds : SchemaMap)
    (metaS : MetaMap) (ms : GenMetaSchema) : StepRes :=
  if st.currentName = [] then .next { st with currentSchema := cs } flds metaS
  else
    .next { st with currentSchema := cs }
      (mapInsert flds st.currentName cs)
      (mapInsert metaS st.currentName (some ms))

/-- One iteration of the field loop of schemaFromStruct. recur is the
recursive derivation call at the remaining fuel (g.schemaFromStruct on a
zero value of the given type, which only depends on the type). -/
def processField (recur : GoType → Option SFSResult) (flt : Option FilterFunc)
    (f : StructField) (st₀ : GenFieldState) (flds : SchemaMap)
    (metaS : MetaMap) : Option StepRes :=
  match applyFilter flt (resetState st₀ f) with
  | .error e => some (.abort flds metaS e)
  | .ok st =>
    if st.action = .actionSkip then some (.next st flds metaS)
    else
      let metaField := st.currentField
      let t := dereferencePtrType st.currentField.2
      let cs0 := st.currentSchema
      let cs := if cs0.1.typ = .typeInvalid then
        ({ cs0.1 with typ := typeFor t }, cs0.2) else cs0
      if cs.1.typ = .typeInvalid then
        -- still unclassifiable: skip this field
        some (.next { st with currentSchema := cs } flds metaS)
      else
        match cs.1.typ with
        | .typeList | .typeSet =>
          match t with
          | .tSlice et =>
            match et with
            | .tStruct _ _ _ =>
              -- a set of complex resources
              match recur et with
              | none => none
              | some (_, _, some err) => some (.abort flds metaS err)
              | some (e, m, none) =>
                some (commitField st (cs.1, some (.elemResource e)) flds metaS
                  (metaField, some m))
            | _ =>
              some (commitField st (cs.1, some (.elemSchema (typeFor et)))
                flds metaS (metaField, none))
          | .tStruct _ _ _ =>
            -- a complex resource
            match recur t with
            | none => none
            | some (_, _, some err) => some (.abort flds metaS err)
            | some (e, m, none) =>
              if st.action = .actionPromote then
                match promoteMerge e m flds metaS with
                | .error (flds', metaS', msg) => some (.abort flds' metaS' msg)
                | .ok (flds', metaS') => some (.next st flds' metaS')
              else
                some (commitField st
                  ({ cs.1 with maxItems := 1 }, some (.elemResource e))
                  flds metaS (metaField, some m))
          | _ => some (commitField st cs flds metaS (metaField, none))
        | _ => some (commitField st cs flds metaS (metaField, none))

/-- The field loop of schemaFromStruct. -/
def walkFields (recur : GoType → Option SFSResult) (flt : Option FilterFunc) :
    List StructField → GenFieldState → SchemaMap → MetaMap →
    Option (SchemaMap × MetaMap × Option GoStr)
  | [], _, flds, metaS => some (flds, metaS, none)
  | f :: rest, st, flds, metaS =>
    match processField recur flt f st flds metaS with
    | none => none
    | some (.abort flds' metaS' e) => some (flds', metaS', some e)
    | some (.next st' flds' metaS') => walkFields recur flt rest st' flds' metaS'

/-- schemagen.schemaFromStruct, fuelled: one unit of fuel per nested
derivation call. The metadata resource records the un-dereferenced
subject type (reflect.TypeOf(subj)); the walk itself runs over the
dereferenced type's fields, with a single state value allocated per
call and threaded through the loop. -/
def schemaFromStruct : Nat → Option FilterFunc → GoType → Option SFSResult
  | 0, _, _ => none
  | fuel + 1, flt, subj =>
    let rawType := dereferencePtrType subj
    match walkFields (schemaFromStruct fuel flt) flt (structFields rawType)
        initialGenFieldState [] [] with
    | none => none
    | some (flds, metaS, e) => some (flds, .mk subj metaS, e)

/-! ## Fixtures mirroring the repository's test types -/

/-- struct, one string field Foo (testSchemaGeneratorNestedBase). -/
def nbType : GoType :=
  .tStruct (str "schemagen") (str "TestNestedBase") [(str "Foo", .tString)]

/-- struct with one bare composite field (testSchemaGeneratorNestedComplex). -/
def ncType : GoType :=
  .tStruct (str "schemagen") (str "TestNestedComplex")
    [(str "NestedComplex", nbType)]

/-- struct with one slice-of-struct field (testSchemaGeneratorSliceComplex). -/
def scType : GoType :=
  .tStruct (str "schemagen") (str "TestSliceComplex")
    [(str "SliceComplex", .tSlice nbType)]

/-- struct with four primitive fields (testSchemaGeneratorPrimitives). -/
def primType : GoType :=
  .tStruct (str "schemagen") (str "TestPrimitives")
    [(str "StringField", .tString), (str "IntField", .tInt),
     (str "BoolField", .tBool), (str "FloatField", .tFloat64)]

/-- struct with one opaque interface field (testSchemaGeneratorInterface). -/
def ifaceType : GoType :=
  .tStruct (str "schemagen") (str "TestIface") [(str "Opaque", .tInterface)]

/-- A schema entry holding only a value type, as the walker derives for
an unfiltered primitive field. -/
def bareSchema (t : ValueType) : GoSchema := ({ emptySchema.1 with typ := t }, none)

theorem schemaFromStruct_primitives :
    schemaFromStruct 2 none primType =
      some ([(str "string_field", bareSchema .typeString),
             (str "int_field", bareSchema .typeInt),
             (str "bool_field", bareSchema .typeBool),
             (str "float_field", bareSchema .typeFloat)],
            .mk primType
              [(str "string_field", some ((str "StringField", .tString), none)),
               (str "int_field", some ((str "IntField", .tInt), none)),
               (str "bool_field", some ((str "BoolField", .tBool), none)),
               (str "float_field", some ((str "FloatField", .tFloat64), none))],
            none) := by
  rfl

/-! ## The indenting text emitter (internal/util.TabPrinter) -/

/-- util.TabPrinter: the tab count and the internal line buffer. The Go
tab count is an int; the decrement is floored at zero but the model
keeps the Int type of the source. -/
structure TabPrinter : Type where
  tc : Int
  lbuf : GoStr

/-- util.NewTabPrinter. -/
def TabPrinter.new (n : Int) : TabPrinter := ⟨n, []⟩

/-- util.TabPrinter.Count. -/
def TabPrinter.count (p : TabPrinter) : Int := p.tc

/-- The scan of calcClose: the first delimiter decides; a closing brace
decrements the count, floored at zero. -/
def calcCloseAux (tc : Int) : GoStr → Int
  | [] => tc
  | c :: rest =>
    if c = '\x7b' ∨ c = '(' then tc
    else if c = '\x7d' ∨ c = ')' then (if tc - 1 < 0 then 0 else tc - 1)
    else calcCloseAux tc rest

/-- util.TabPrinter.calcClose. -/
def TabPrinter.calcClose (p : TabPrinter) (s : GoStr) : TabPrinter :=
  { p with tc := calcCloseAux p.tc s }

/-- Opening delimiters of a buffer (ob of calcOpen). -/
def countOpens (s : GoStr) : Nat :=
  (s.filter (fun c => c = '\x7b' || c = '(')).length

/-- Closing delimiters of a buffer (cb of calcOpen). -/
def countCloses (s : GoStr) : Nat :=
  (s.filter (fun c => c = '\x7d' || c = ')')).length

/-- strings.HasSuffix(s, newline). -/
def endsWithNewline (s : GoStr) : Bool :=
  match s.getLast? with
  | some c => c = '\n'
  | none => false

/-- util.TabPrinter.calcOpen: accumulate the line buffer; once it ends
in a newline, the whole buffered line is scanned, the count increments
when openings outnumber closings, and the buffer resets. -/
def TabPrinter.calcOpen (p : TabPrinter) (s : GoStr) : TabPrinter :=
  let lbuf := p.lbuf ++ s
  if !endsWithNewline lbuf then { p with lbuf := lbuf }
  else
    { tc := if countOpens lbuf > countCloses lbuf then p.tc + 1 else p.tc,
      lbuf := [] }

/-- util.TabPrinter.Fprintf on an already-rendered string: runs
calcClose, prefixes the text with the current count of tabs unless a
line is in flight, emits, then runs calcOpen. Returns the emitted text
and the updated printer. -/
def TabPrinter.fprintf (p : TabPrinter) (rendered : GoStr) :
    GoStr × TabPrinter :=
  let p1 := p.calcClose rendered
  let tcEff : Int := if p1.lbuf.length > 0 then 0 else p1.tc
  (List.replicate tcEff.toNat '\t' ++ rendered, p1.calcOpen rendered)

/-- A printer paired with the text written so far through it (the
io.Writer contents), and one write through the pair. -/
def emitS (pw : TabPrinter × GoStr) (s : GoStr) : TabPrinter × GoStr :=
  let (o, p') := pw.1.fprintf s
  (p', pw.2 ++ o)

/-! ## The schema serializer (schemagen.schemaFprint) -/

/-- fmt %q for the strings rendered here (keys, identifiers and plain
descriptive text, which need no escaping). -/
def goQuote (s : GoStr) : GoStr := '"' :: (s ++ ['"'])

/-- fmt %t. -/
def boolToStr (b : Bool) : GoStr := if b then str "true" else str "false"

/-- fmt %d on a non-negative count. -/
def natToStr (n : Nat) : GoStr := str (toString n)

/-- schemagen.valToStr: strconv.Itoa for ints, %q for strings,
strconv.FormatBool for bools. The panic paths (unhandled dynamic type,
empty result) are unreachable over the modelled value domain. -/
def valToStr : GoPrim → GoStr
  | .pInt n => str (toString n)
  | .pString s => goQuote s
  | .pBool b => if b then str "true" else str "false"

/-- The strings passed to p.Fprintf for the attributes preceding Elem in
the struct order of schema.Schema (Type, Optional, Required, the
function-valued DiffSuppressFunc which is always skipped, Default,
Description, InputDefault, Computed, ForceNew). An attribute holding
its zero value is skipped. -/
def attrWritesPre (a : SchemaAttrs) : List GoStr :=
  (if a.typ = .typeInvalid then []
   else [str "Type: schema." ++ valueTypeName a.typ ++ str ",\n"]) ++
  (if a.optional = false then []
   else [str "Optional: " ++ boolToStr a.optional ++ str ",\n"]) ++
  (if a.required = false then []
   else [str "Required: " ++ boolToStr a.required ++ str ",\n"]) ++
  (match a.defaultVal with
   | none => []
   | some v => [str "Default: " ++ valToStr v ++ str ",\n"]) ++
  (if a.description = [] then []
   else [str "Description: " ++ goQuote a.description ++ str ",\n"]) ++
  (if a.inputDefault = [] then []
   else [str "InputDefault: " ++ valToStr (.pString a.inputDefault) ++ str ",\n"]) ++
  (if a.computed = false then []
   else [str "Computed: " ++ boolToStr a.computed ++ str ",\n"]) ++
  (if a.forceNew = false then []
   else [str "ForceNew: " ++ boolToStr a.forceNew ++ str ",\n"])

/-- The strings passed to p.Fprintf for the attributes following Elem
(MaxItems, MinItems, then - skipped - the function-valued Set and the
string slices ComputedWhen and ConflictsWith, for which the serializer
has no case, then Deprecated, Removed, the skipped ValidateFunc, and
Sensitive). -/
def attrWritesPost (a : SchemaAttrs) : List GoStr :=
  (if a.maxItems = 0 then []
   else [str "MaxItems: " ++ natToStr a.maxItems ++ str ",\n"]) ++
  (if a.minItems = 0 then []
   else [str "MinItems: " ++ natToStr a.minItems ++ str ",\n"]) ++
  (if a.deprecated = [] then []
   else [str "Deprecated: " ++ goQuote a.deprecated ++ str ",\n"]) ++
  (if a.removed = [] then []
   else [str "Removed: " ++ goQuote a.removed ++ str ",\n"]) ++
  (if a.sensitive = false then []
   else [str "Sensitive: " ++ boolToStr a.sensitive ++ str ",\n"])

/-- Lexicographic string comparison (sort.Strings order). -/
def strLe : GoStr → GoStr → Bool
  | [], _ => true
  | _ :: _, [] => false
  | a :: as, b :: bs => if a < b then true else if b < a then false else strLe as bs

instance strLeDecidableRel : DecidableRel (fun a b : GoStr => strLe a b = true) :=
  fun a b => inferInstanceAs (Decidable (strLe a b = true))

/-- sort.Strings: sort a key list lexicographically. -/
def sortStrings (l : List GoStr) : List GoStr :=
  List.insertionSort (fun a b => strLe a b = true) l

/-- One schema entry of schemaFprint: the key header, the attribute
lines before Elem, the Elem line (recursing through the supplied
continuation for a nested resource), the attribute lines after Elem,
and the closing brace. -/
def renderEntry
    (recur : SchemaMap → TabPrinter × GoStr → Option (TabPrinter × GoStr))
    (k : GoStr) (v : GoSchema) (pw : TabPrinter × GoStr) :
    Option (TabPrinter × GoStr) :=
  let pw := emitS pw (goQuote k ++ str ": \x7b\n")
  let pw := (attrWritesPre v.1).foldl emitS pw
  let elemStep : Option (TabPrinter × GoStr) :=
    match v.2 with
    | none => some pw
    | some (.elemSchema t) =>
      some (emitS pw (str "Elem: &schema.Schema\x7bType: schema."
        ++ valueTypeName t ++ str "\x7d,\n"))
    | some (.elemResource e) =>
      match recur e (emitS (emitS pw (str "Elem: &schema.Resource\x7b\n"))
          (str "Schema: ")) with
      | none => none
      | some pw' => some (emitS pw' (str "\x7d,\n"))
  match elemStep with
  | none => none
  | some pw =>
    let pw := (attrWritesPost v.1).foldl emitS pw
    some (emitS pw (str "\x7d,\n"))

/-- The loop of schemaFprint over the sorted keys. -/
def renderEntries
    (recur : SchemaMap → TabPrinter × GoStr → Option (TabPrinter × GoStr))
    (s : SchemaMap) : List GoStr → TabPrinter × GoStr →
    Option (TabPrinter × GoStr)
  | [], pw => some pw
  | k :: ks, pw =>
    match lookupKey k s with
    | none => renderEntries recur s ks pw
    | some v =>
      match renderEntry recur k v pw with
      | none => none
      | some pw' => renderEntries recur s ks pw'

/-- schemagen.schemaFprint, fuelled (one unit per nesting level): print
the header, the entries in sorted key order, the closing brace, and a
trailing comma when the brace closed a nested block (the printer count
is still positive). The printer and the written text are threaded. -/
def schemaFprint : Nat → SchemaMap → TabPrinter × GoStr →
    Option (TabPrinter × GoStr)
  | 0, _, _ => none
  | fuel + 1, s, pw =>
    let pw := emitS pw (str "map[string]*schema.Schema\x7b\n")
    match renderEntries (schemaFprint fuel) s (sortStrings (keysOf s)) pw with
    | none => none
    | some pw =>
      let pw := emitS pw (str "\x7d")
      let pw := if pw.1.tc > 0 then emitS pw (str ",") else pw
      some (emitS pw (str "\n"))

/-- schemagen.SchemaGenerator.Run: derive, then write the import block,
the variable declaration and the serialized schema; a derivation error
aborts before anything is written. -/
def runGen (fuel : Nat) (flt : Option FilterFunc) (subj : GoType)
    (varName : GoStr) : Option (Except GoStr GoStr) :=
  match schemaFromStruct fuel flt subj with
  | none => none
  | some (_, _, some e) => some (.error e)
  | some (flds, _, none) =>
    match schemaFprint fuel flds (TabPrinter.new 0, []) with
    | none => none
    | some (_, out) =>
      some (.ok (str "import (\n\t\"github.com/hashicorp/terraform/helper/schema\")\n\n"
        ++ str "var " ++ varName ++ str " = " ++ out))

theorem schemaFprint_nested_complex_matches_test :
    (schemaFromStruct 3 none ncType).bind
      (fun r => (schemaFprint 3 r.1 (TabPrinter.new 0, [])).map (·.2)) =
    some (str "map[string]*schema.Schema\x7b\n\t\"nested_complex\": \x7b\n\t\tType: schema.TypeList,\n\t\tElem: &schema.Resource\x7b\n\t\t\tSchema: map[string]*schema.Schema\x7b\n\t\t\t\t\"foo\": \x7b\n\t\t\t\t\tType: schema.TypeString,\n\t\t\t\t\x7d,\n\t\t\t\x7d,\n\t\t\x7d,\n\t\tMaxItems: 1,\n\t\x7d,\n\x7d\n") := by
  rfl

/-! ## The expand-function emitter (schemagen.expandFprint) -/

/-- schemagen.expandFlattenFprintType: the source representation at the
top level (a *schema.ResourceData) versus nested levels (a generic
map). -/
inductive ExpandFlattenFprintType : Type where
  | rdType : ExpandFlattenFprintType
  | mapType : ExpandFlattenFprintType

/-- The type literal of the accessor parameter. -/
def eftString : ExpandFlattenFprintType → GoStr
  | .rdType => str "*schema.ResourceData"
  | .mapType => str "map[string]interface\x7b\x7d"

/-- schemagen.expandFlattenFprintType.expandPrint: the accessor idiom
for a key at this level. -/
def expandPrint : ExpandFlattenFprintType → GoStr → GoStr
  | .rdType, name => str "d.Get(" ++ goQuote name ++ str ")"
  | .mapType, name => str "d[" ++ goQuote name ++ str "]"

/-- strings.Title on a single identifier (no separators): upper-case
the first letter. -/
def title : GoStr → GoStr
  | [] => []
  | c :: cs => c.toUpper :: cs

/-- strings.TrimPrefix(s, star). -/
def trimStar : GoStr → GoStr
  | '*' :: rest => rest
  | s => s

/-- The loop of expandFprint over the sorted metadata keys. pb is the
printer and the function body being built; bufs is the buffer slice
being threaded (recursive emissions append to it). recur is
g.expandFprint at the remaining fuel. A stored nil metadata pointer or
nil Elem would make the Go code dereference nil; the model returns none
there. -/
def expandFields
    (recur : GenMetaResource → List GoStr → Option (List GoStr))
    (ms : MetaMap) (eft : ExpandFlattenFprintType) :
    List GoStr → TabPrinter × GoStr → List GoStr →
    Option ((TabPrinter × GoStr) × List GoStr)
  | [], pb, bufs => some (pb, bufs)
  | sk :: rest, pb, bufs =>
    match lookupKey sk ms with
    | none => none
    | some none => none
    | some (some (field, melem)) =>
      let fn := field.1
      let ft := dereferencePtrType field.2
      match ft with
      | .tSlice se =>
        let pb := emitS pb (str "var s" ++ fn ++ str " []" ++ goTypeString se ++ str "\n")
        let pb := emitS pb (str "u" ++ fn ++ str " := " ++ expandPrint eft sk
          ++ str ".([]interface\x7b\x7d)\n")
        let pb := emitS pb (str "for _, v := range u" ++ fn ++ str " \x7b\n")
        match se with
        | .tStruct _ _ _ =>
          match melem with
          | none => none
          | some em =>
            match recur em bufs with
            | none => none
            | some bufs' =>
              let pb := emitS pb (str "w = expand" ++ title (goTypeName se)
                ++ str "(v.(map[string]interface\x7b\x7d))\n")
              let pb := emitS pb (str "s" ++ fn ++ str " = append(s" ++ fn ++ str ", w)\n")
              let pb := emitS pb (str "\x7d\n")
              let pb := emitS pb (str "obj." ++ fn ++ str " = s" ++ fn ++ str "\n")
              expandFields recur ms eft rest pb bufs'
        | _ =>
          let pb := emitS pb (str "w := v.(" ++ goTypeString se ++ str ")\n")
          let pb := emitS pb (str "s" ++ fn ++ str " = append(s" ++ fn ++ str ", w)\n")
          let pb := emitS pb (str "\x7d\n")
          let pb := emitS pb (str "obj." ++ fn ++ str " = s" ++ fn ++ str "\n")
          expandFields recur ms eft rest pb bufs
      | .tStruct _ _ _ =>
        match melem with
        | none => none
        | some em =>
          match recur em bufs with
          | none => none
          | some bufs' =>
            let et := em.type
            let pb := emitS pb (str "m" ++ fn ++ str " := " ++ expandPrint eft sk
              ++ str ".([]interface\x7b\x7d)[0].(map[string]interface\x7b\x7d)\n")
            let pb := emitS pb (str "obj." ++ fn ++ str " = expand"
              ++ title (goTypeName et) ++ str "(m" ++ fn ++ str ")\n")
            expandFields recur ms eft rest pb bufs'
      | _ =>
        let pb := emitS pb (str "obj." ++ fn ++ str " = " ++ expandPrint eft sk
          ++ str ".(" ++ kindString ft ++ str ")\n")
        expandFields recur ms eft rest pb bufs

/-- schemagen.expandFprint, fuelled (one unit per composite reached):
append a buffer for the subject's own function (its final contents are
written at the reserved index at the end), pick the accessor idiom from
the slice length after the append, emit the function header and the
fresh instance literal, loop over the metadata in sorted key order
(recursions append the buffers of nested composites after the subject's
own buffer), then close the function. -/
def expandFprint : Nat → GenMetaResource → List GoStr → Option (List GoStr)
  | 0, _, _ => none
  | fuel + 1, meta, bufSlice =>
    let idx := bufSlice.length
    let bufSlice1 := bufSlice ++ [[]]
    let eft : ExpandFlattenFprintType :=
      if bufSlice1.length > 1 then .mapType else .rdType
    let rs := goTypeString meta.type
    let rn := goTypeName meta.type
    let pb : TabPrinter × GoStr := (TabPrinter.new 0, [])
    let pb := emitS pb (str "func expand" ++ title rn ++ str "(d "
      ++ eftString eft ++ str ") " ++ rs ++ str " \x7b\n")
    let rsb := trimStar rs
    let rsp : GoStr := if rs = rsb then [] else ['&']
    let pb := emitS pb (str "obj := " ++ rsp ++ rsb ++ str "\x7b\x7d\n")
    match expandFields (expandFprint fuel) meta.schema eft
        (sortStrings (keysOf meta.schema)) pb bufSlice1 with
    | none => none
    | some (pb, bufs) =>
      let pb := emitS pb (str "return obj\n")
      let pb := emitS pb (str "\x7d")
      some (bufs.set idx pb.2)

theorem expandFprint_primitives_matches_test :
    (schemaFromStruct 2 none primType).bind (fun r => expandFprint 2 r.2.1 []) =
      some [str "func expandTestPrimitives(d *schema.ResourceData) schemagen.TestPrimitives \x7b\n\tobj := schemagen.TestPrimitives\x7b\x7d\n\tobj.BoolField = d.Get(\"bool_field\").(bool)\n\tobj.FloatField = d.Get(\"float_field\").(float64)\n\tobj.IntField = d.Get(\"int_field\").(int)\n\tobj.StringField = d.Get(\"string_field\").(string)\n\treturn obj\n\x7d"] := by
  rfl

theorem expandFprint_nested_complex_matches_test :
    (schemaFromStruct 3 none ncType).bind (fun r => expandFprint 3 r.2.1 []) =
      some [str "func expandTestNestedComplex(d *schema.ResourceData) schemagen.TestNestedComplex \x7b\n\tobj := schemagen.TestNestedComplex\x7b\x7d\n\tmNestedComplex := d.Get(\"nested_complex\").([]interface\x7b\x7d)[0].(map[string]interface\x7b\x7d)\n\tobj.NestedComplex = expandTestNestedBase(mNestedComplex)\n\treturn obj\n\x7d",
            str "func expandTestNestedBase(d map[string]interface\x7b\x7d) schemagen.TestNestedBase \x7b\n\tobj := schemagen.TestNestedBase\x7b\x7d\n\tobj.Foo = d[\"foo\"].(string)\n\treturn obj\n\x7d"] := by
  rfl

theorem schemaFromStruct_slice_complex :
    schemaFromStruct 3 none scType =
      some ([(str "slice_complex",
              ({ emptySchema.1 with typ := .typeSet },
               some (.elemResource [(str "foo", bareSchema .typeString)])))],
            .mk scType
              [(str "slice_complex",
                some ((str "SliceComplex", .tSlice nbType),
                      some (.mk nbType
                        [(str "foo", some ((str "Foo", .tString), none))])))],
            none) := by
  rfl

/-! ## Lemmas about the indenting text emitter -/

/-- Whether the first delimiter of a text is a closing one (the scan
performed by calcClose). -/
def firstDelimClosing : GoStr → Bool
  | [] => false
  | c :: rest =>
    if c = '\x7b' ∨ c = '(' then false
    else if c = '\x7d' ∨ c = ')' then true
    else firstDelimClosing rest

theorem calcCloseAux_of_firstClosing :
    ∀ (s : GoStr) (tc : Int), firstDelimClosing s = true →
      calcCloseAux tc s = max (tc - 1) 0 := by
  intro s
  induction s with
  | nil => intro tc h; simp [firstDelimClosing] at h
  | cons c rest ih =>
    intro tc h
    by_cases h1 : c = '\x7b' ∨ c = '('
    · simp [firstDelimClosing, h1] at h
    · by_cases h2 : c = '\x7d' ∨ c = ')'
      · simp only [calcCloseAux, if_neg h1, if_pos h2]
        split <;> omega
      · have h' : firstDelimClosing rest = true := by
          simpa [firstDelimClosing, h1, h2] using h
        simp only [calcCloseAux, if_neg h1, if_neg h2]
        exact ih tc h'

theorem calcCloseAux_of_firstNotClosing :
    ∀ (s : GoStr) (tc : Int), firstDelimClosing s = false →
      calcCloseAux tc s = tc := by
  intro s
  induction s with
  | nil => intro tc _; rfl
  | cons c rest ih =>
    intro tc h
    by_cases h1 : c = '\x7b' ∨ c = '('
    · simp only [calcCloseAux, if_pos h1]
    · by_cases h2 : c = '\x7d' ∨ c = ')'
      · simp [firstDelimClosing, h1, h2] at h
      · have h' : firstDelimClosing rest = false := by
          simpa [firstDelimClosing, h1, h2] using h
        simp only [calcCloseAux, if_neg h1, if_neg h2]
        exact ih tc h'

theorem calcCloseAux_nonneg :
    ∀ (s : GoStr) (tc : Int), 0 ≤ tc → 0 ≤ calcCloseAux tc s := by
  intro s
  induction s with
  | nil => intro tc h; simpa [calcCloseAux] using h
  | cons c rest ih =>
    intro tc h
    by_cases h1 : c = '\x7b' ∨ c = '('
    · simpa [calcCloseAux, h1] using h
    · by_cases h2 : c = '\x7d' ∨ c = ')'
      · simp only [calcCloseAux, if_neg h1, if_pos h2]
        omega
      · simp only [calcCloseAux, if_neg h1, if_neg h2]
        exact ih tc h

theorem fprintf_tc_nonneg (p : TabPrinter) (s : GoStr) (h : 0 ≤ p.tc) :
    0 ≤ (p.fprintf s).2.tc := by
  have hc : 0 ≤ calcCloseAux p.tc s := calcCloseAux_nonneg s p.tc h
  dsimp only [TabPrinter.fprintf, TabPrinter.calcClose, TabPrinter.calcOpen]
  split
  · exact hc
  · dsimp only
    split
    · omega
    · exact hc

theorem foldl_fprintf_tc_nonneg (writes : List GoStr) :
    ∀ p : TabPrinter, 0 ≤ p.tc →
      0 ≤ (writes.foldl (fun q t => (q.fprintf t).2) p).tc := by
  induction writes with
  | nil => intro p h; simpa using h
  | cons w ws ih =>
    intro p h
    simpa using ih ((p.fprintf w).2) (fprintf_tc_nonneg p w h)

/-- C10. Properties of a write through the indenting text emitter: the
first delimiter being a closing one decrements the depth by exactly one
floored at zero and the emitted text is prefixed using that decremented
depth; a write following an unterminated line receives no indentation
prefix; once the accumulated line buffer ends in a newline, the depth
increments exactly when its opening-delimiter count exceeds its
closing-delimiter count (and the buffer resets), otherwise the depth is
left at the post-decrement value and the buffer accumulates; and the
depth counter never becomes negative over any sequence of writes. -/
theorem c10_indent_emitter :
    ∀ (p : TabPrinter) (s : GoStr),
      (firstDelimClosing s = true → (p.calcClose s).tc = max (p.tc - 1) 0) ∧
      (firstDelimClosing s = false → (p.calcClose s).tc = p.tc) ∧
      (p.lbuf ≠ [] → (p.fprintf s).1 = s) ∧
      (p.lbuf = [] →
        (p.fprintf s).1 = List.replicate (p.calcClose s).tc.toNat '\t' ++ s) ∧
      (endsWithNewline (p.lbuf ++ s) = true →
        (p.fprintf s).2.tc = (p.calcClose s).tc +
          (if countOpens (p.lbuf ++ s) > countCloses (p.lbuf ++ s) then 1 else 0) ∧
        (p.fprintf s).2.lbuf = []) ∧
      (endsWithNewline (p.lbuf ++ s) = false →
        (p.fprintf s).2.tc = (p.calcClose s).tc ∧
        (p.fprintf s).2.lbuf = p.lbuf ++ s) ∧
      (∀ writes : List GoStr, 0 ≤ p.tc →
        0 ≤ (writes.foldl (fun q t => (q.fprintf t).2) p).tc) := by
  intro p s
  refine ⟨calcCloseAux_of_firstClosing s p.tc, calcCloseAux_of_firstNotClosing s p.tc,
    ?_, ?_, ?_, ?_, fun writes h => foldl_fprintf_tc_nonneg writes p h⟩
  · intro h
    have hlen : 0 < p.lbuf.length := List.length_pos.mpr h
    simp [TabPrinter.fprintf, TabPrinter.calcClose, hlen]
  · intro h
    simp [TabPrinter.fprintf, TabPrinter.calcClose, h]
  · intro h
    simp only [TabPrinter.fprintf, TabPrinter.calcClose, TabPrinter.calcOpen, h,
      Bool.not_true, Bool.false_eq_true, if_false]
    refine ⟨?_, trivial⟩
    split <;> omega
  · intro h
    simp only [TabPrinter.fprintf, TabPrinter.calcClose, TabPrinter.calcOpen, h,
      Bool.not_false, if_true]
    constructor <;> trivial

/-- Witness for C10 at a concrete printer and write. -/
theorem c10_indent_emitter_witness :
    ((⟨1, []⟩ : TabPrinter).calcClose (str "\x7d")).tc = max (1 - 1) 0 ∧
    (((⟨1, []⟩ : TabPrinter).fprintf (str "\x7d")).1
      = List.replicate ((⟨1, []⟩ : TabPrinter).calcClose (str "\x7d")).tc.toNat '\t'
        ++ str "\x7d") ∧
    0 ≤ (([str "a(\n", str "x\n", str "\x7d\n"].foldl
        (fun q t => (q.fprintf t).2) (⟨0, []⟩ : TabPrinter))).tc := by
  refine ⟨(c10_indent_emitter ⟨1, []⟩ (str "\x7d")).1 (by decide),
    (c10_indent_emitter ⟨1, []⟩ (str "\x7d")).2.2.2.1 rfl,
    (c10_indent_emitter ⟨0, []⟩ (str "")).2.2.2.2.2.2
      [str "a(\n", str "x\n", str "\x7d\n"] (by decide)⟩

/-! ## C4: the type classifier -/

/-- C4. The classifier maps a slice to List when its element type
classifies to anything other than List and to Set otherwise; keyed
mappings map to Map, bare composite records to List, hence a
slice-of-struct maps to Set; and a derivation over a struct with a
slice-of-struct field (element type a single-string-field struct)
yields an entry of kind Set. -/
theorem c4_type_classifier :
    (∀ et : GoType, typeFor et ≠ .typeList → typeFor (.tSlice et) = .typeList) ∧
    (∀ et : GoType, typeFor et = .typeList → typeFor (.tSlice et) = .typeSet) ∧
    (∀ k v : GoType, typeFor (.tMap k v) = .typeMap) ∧
    (∀ p n fs, typeFor (.tStruct p n fs) = .typeList) ∧
    (∀ p n fs, typeFor (.tSlice (.tStruct p n fs)) = .typeSet) ∧
    ((schemaFromStruct 3 none scType).map
        (fun r => r.1.map (fun e => (e.1, e.2.1.typ)))
      = some [(str "slice_complex", .typeSet)]) := by
  refine ⟨?_, ?_, ?_, ?_, ?_, rfl⟩
  · intro et h; simp [typeFor, h]
  · intro et h; simp [typeFor, h]
  · intro k v; rfl
  · intro p n fs; rfl
  · intro p n fs; simp [typeFor]

/-- Witness for C4: a slice of strings classifies to List, a slice of
slices degrades to Set. -/
theorem c4_type_classifier_witness :
    typeFor (.tSlice .tString) = .typeList ∧
    typeFor (.tSlice (.tSlice .tString)) = .typeSet :=
  ⟨c4_type_classifier.1 .tString (by decide),
   c4_type_classifier.2.1 (.tSlice .tString) (by decide)⟩

/-! ## C2: the generation state is shared across fields (code bug) -/

/-- Two string fields, A first. -/
def twoStrA : GoType :=
  .tStruct (str "schemagen") (str "TwoStringsAB")
    [(str "A", .tString), (str "B", .tString)]

/-- Two string fields, B first. -/
def twoStrB : GoType :=
  .tStruct (str "schemagen") (str "TwoStringsBA")
    [(str "B", .tString), (str "A", .tString)]

/-- A filter that requests skip for the field named a and, per the
filter contract, leaves the state of any other field untouched. -/
def skipAFilter : FilterFunc :=
  fun st => .ok (if st.currentName = str "a" then
    { st with action := .actionSkip } else st)

/-- C2 (failing-input evidence). The walker allocates one GenFieldState
per derivation call and never resets its Action across fields: after
skipAFilter skips field A, field B is silently skipped as well (empty
output), whereas with the declaration order reversed the same filter
and fields leave b present. Under the claim (state created fresh per
field with a default action tag) both derivations would contain b. -/
theorem c2_action_persists_across_fields :
    schemaFromStruct 2 (some skipAFilter) twoStrA
      = some ([], .mk twoStrA [], none) ∧
    schemaFromStruct 2 (some skipAFilter) twoStrB
      = some ([(str "b", bareSchema .typeString)],
              .mk twoStrB [(str "b", some ((str "B", .tString), none))],
              none) := ⟨rfl, rfl⟩

/-! ## C3: filter errors abort the derivation -/

/-- C3. A filter error on a field aborts the walk immediately: the
remaining fields are never examined and the accumulators are returned
unchanged alongside the error; and a derivation that reports an error
makes Run return that error without writing any output. -/
theorem c3_filter_error_aborts :
    (∀ (recur : GoType → Option SFSResult) (g : FilterFunc) (f : StructField)
       (rest : List StructField) (st : GenFieldState) (flds : SchemaMap)
       (metaS : MetaMap) (e : GoStr),
       g (resetState st f) = .error e →
       walkFields recur (some g) (f :: rest) st flds metaS
         = some (flds, metaS, some e)) ∧
    (∀ (fuel : Nat) (flt : Option FilterFunc) (subj : GoType) (varName : GoStr)
       (flds : SchemaMap) (meta : GenMetaResource) (e : GoStr),
       schemaFromStruct fuel flt subj = some (flds, meta, some e) →
       runGen fuel flt subj varName = some (.error e)) := by
  constructor
  · intro recur g f rest st flds metaS e h
    simp [walkFields, processField, applyFilter, h]
  · intro fuel flt subj varName flds meta e h
    simp [runGen, h]

/-- A filter erroring on the field named a. -/
def errFilter : FilterFunc :=
  fun st => if st.currentName = str "a" then .error (str "boom") else .ok st

/-- Witness for C3 at a concrete subject and filter. -/
theorem c3_filter_error_aborts_witness :
    walkFields (schemaFromStruct 1 (some errFilter)) (some errFilter)
        [(str "A", .tString), (str "B", .tString)] initialGenFieldState [] []
      = some ([], [], some (str "boom")) ∧
    runGen 2 (some errFilter) twoStrA (str "out") = some (.error (str "boom")) :=
  ⟨c3_filter_error_aborts.1 _ errFilter (str "A", .tString)
      [(str "B", .tString)] initialGenFieldState [] [] (str "boom") rfl,
   c3_filter_error_aborts.2 2 (some errFilter) twoStrA (str "out") []
      (.mk twoStrA []) (str "boom") rfl⟩


/-! ## Association list lemmas -/

theorem containsKey_cons {α : Type} {m : List (GoStr × α)} {p : GoStr × α} {k : GoStr} :
    containsKey (p :: m) k = (decide (p.1 = k) || containsKey m k) := by
  simp [containsKey, List.any_cons]

theorem containsKey_append {α : Type} {m l : List (GoStr × α)} {k : GoStr} :
    containsKey (m ++ l) k = (containsKey m k || containsKey l k) := by
  simp [containsKey, List.any_append]

theorem mapInsert_of_not_contains {α : Type} {m : List (GoStr × α)} {k : GoStr} {v : α}
    (h : containsKey m k = false) : mapInsert m k v = m ++ [(k, v)] := by
  simp [mapInsert, h]

theorem lookupKey_of_contains_false {α : Type} {m : List (GoStr × α)} {k : GoStr}
    (h : containsKey m k = false) : lookupKey k m = none := by
  induction m with
  | nil => rfl
  | cons p rest ih =>
    rcases p with ⟨k₀, v₀⟩
    rw [containsKey_cons] at h
    simp only [Bool.or_eq_false_iff, decide_eq_false_iff_not] at h
    simp only [lookupKey, if_neg (by simpa [eq_comm] using h.1)]
    exact ih h.2

theorem lookupKey_contains {α : Type} {m : List (GoStr × α)} {k : GoStr} :
    containsKey m k = true ↔ (lookupKey k m).isSome := by
  induction m with
  | nil => simp [containsKey, lookupKey]
  | cons p rest ih =>
    rcases p with ⟨k₀, v₀⟩
    rw [containsKey_cons]
    by_cases hk : k = k₀
    · simp [lookupKey, hk]
    · simp only [lookupKey, if_neg hk]
      simp only [Bool.or_eq_true_iff, decide_eq_true_eq]
      constructor
      · rintro (h | h)
        · exact absurd h.symm hk
        · exact ih.mp h
      · intro h; exact Or.inr (ih.mpr h)

/-- The mapped entry of the replace branch of mapInsert. -/
theorem replaceEntry_hit {α : Type} {k : GoStr} {v v₀ : α} :
    (if ((k, v₀) : GoStr × α).1 = k then (k, v) else (k, v₀)) = (k, v) := by
  simp

theorem replaceEntry_miss {α : Type} {k k₀ : GoStr} {v v₀ : α} (h : k₀ ≠ k) :
    (if ((k₀, v₀) : GoStr × α).1 = k then (k, v) else (k₀, v₀)) = (k₀, v₀) := by
  simp [h]

theorem lookup_replace_self {α : Type} {m : List (GoStr × α)} {k : GoStr} {v : α}
    (h : containsKey m k = true) :
    lookupKey k (m.map (fun p => if p.1 = k then (k, v) else p)) = some v := by
  induction m with
  | nil => simp [containsKey] at h
  | cons p rest ih =>
    rcases p with ⟨k₀, v₀⟩
    by_cases h0 : k₀ = k
    · subst h0
      rw [List.map_cons, replaceEntry_hit]
      simp [lookupKey]
    · rw [containsKey_cons] at h
      have hrest : containsKey rest k = true := by
        simp only [Bool.or_eq_true_iff, decide_eq_true_eq] at h
        rcases h with h | h
        · exact absurd h h0
        · exact h
      rw [List.map_cons, replaceEntry_miss h0]
      simp only [lookupKey, if_neg (show ¬ k = k₀ from fun he => h0 he.symm)]
      exact ih hrest

theorem lookup_replace_ne {α : Type} {m : List (GoStr × α)} {k k' : GoStr} {v : α}
    (hne : k' ≠ k) :
    lookupKey k' (m.map (fun p => if p.1 = k then (k, v) else p)) = lookupKey k' m := by
  induction m with
  | nil => rfl
  | cons p rest ih =>
    rcases p with ⟨k₀, v₀⟩
    by_cases h0 : k₀ = k
    · subst h0
      rw [List.map_cons, replaceEntry_hit]
      simp only [lookupKey, if_neg hne]
      exact ih
    · rw [List.map_cons, replaceEntry_miss h0]
      by_cases hk' : k' = k₀
      · simp [lookupKey, hk']
      · simp only [lookupKey, if_neg hk']
        exact ih

theorem lookup_append_single {α : Type} {m : List (GoStr × α)} {k k' : GoStr} {v : α}
    (h : containsKey m k = false) :
    lookupKey k' (m ++ [(k, v)]) = if k' = k then some v else lookupKey k' m := by
  induction m with
  | nil => simp [lookupKey]
  | cons p rest ih =>
    rcases p with ⟨k₀, v₀⟩
    rw [containsKey_cons] at h
    simp only [Bool.or_eq_false_iff, decide_eq_false_iff_not] at h
    by_cases hk' : k' = k₀
    · have hne : k' ≠ k := by
        intro he
        exact h.1 (by rw [← he, hk'])
      simp [lookupKey, hk', hne, h.1]
    · simp only [List.cons_append, lookupKey, if_neg hk']
      exact ih h.2

theorem lookupKey_mapInsert {α : Type} {m : List (GoStr × α)} {k k' : GoStr} {v : α} :
    lookupKey k' (mapInsert m k v) = if k' = k then some v else lookupKey k' m := by
  by_cases hc : containsKey m k = true
  · simp only [mapInsert, hc, if_true]
    by_cases hk' : k' = k
    · subst hk'
      rw [if_pos rfl]
      exact lookup_replace_self hc
    · rw [if_neg hk']
      exact lookup_replace_ne hk'
  · simp only [Bool.not_eq_true] at hc
    rw [mapInsert_of_not_contains hc]
    exact lookup_append_single hc

theorem containsKey_mapInsert {α : Type} {m : List (GoStr × α)} {k k' : GoStr} {v : α} :
    containsKey (mapInsert m k v) k' = (decide (k' = k) || containsKey m k') := by
  have h1 : lookupKey k' (mapInsert m k v) = if k' = k then some v else lookupKey k' m :=
    lookupKey_mapInsert
  by_cases hk' : k' = k
  · rw [if_pos hk'] at h1
    have h2 : containsKey (mapInsert m k v) k' = true :=
      lookupKey_contains.mpr (by rw [h1]; rfl)
    rw [h2, hk', decide_eq_true rfl, Bool.true_or]
  · rw [if_neg hk'] at h1
    rw [decide_eq_false hk', Bool.false_or]
    by_cases hm : containsKey m k' = true
    · rw [hm]
      exact lookupKey_contains.mpr (h1 ▸ lookupKey_contains.mp hm)
    · simp only [Bool.not_eq_true] at hm
      rw [hm]
      refine Bool.eq_false_iff.mpr (fun hcon => ?_)
      have := lookupKey_contains.mp hcon
      rw [h1] at this
      rw [lookupKey_contains.mpr this] at hm
      exact Bool.true_eq_false.mp hm

theorem containsKey_mapInsert_mono {α : Type} {m : List (GoStr × α)}
    {k₀ k : GoStr} {v : α} (h : containsKey m k = true) :
    containsKey (mapInsert m k₀ v) k = true := by
  rw [containsKey_mapInsert, h, Bool.or_true]

/-! ## Characterizations of one field-loop iteration -/

theorem processField_struct_arm
    (recur : GoType → Option SFSResult) (flt : Option FilterFunc)
    (f : StructField) (st : GenFieldState) (flds : SchemaMap) (metaS : MetaMap)
    (st' : GenFieldState) (p n : GoStr) (sf : List (GoStr × GoType))
    (cs1 : SchemaAttrs) (e : SchemaMap) (m : GenMetaResource)
    (hflt : applyFilter flt (resetState st f) = .ok st')
    (hskip : st'.action ≠ .actionSkip)
    (hderef : dereferencePtrType st'.currentField.2 = .tStruct p n sf)
    (hcs1 : cs1 = (if st'.currentSchema.1.typ = .typeInvalid then
      { st'.currentSchema.1 with typ := typeFor (.tStruct p n sf) }
      else st'.currentSchema.1))
    (hvt : cs1.typ = .typeList ∨ cs1.typ = .typeSet)
    (hrec : recur (.tStruct p n sf) = some (e, m, none)) :
    processField recur flt f st flds metaS =
      (if st'.action = .actionPromote then
        (match promoteMerge e m flds metaS with
         | .error (flds', metaS', msg) => some (.abort flds' metaS' msg)
         | .ok (flds', metaS') => some (.next st' flds' metaS'))
       else
        some (commitField st'
          ({ cs1 with maxItems := 1 }, some (.elemResource e))
          flds metaS (st'.currentField, some m))) := by
  have hinv : cs1.typ ≠ .typeInvalid := by
    rcases hvt with h | h <;> rw [h] <;> intro hcon <;> cases hcon
  simp only [processField, hflt, hderef]
  rw [if_neg hskip]
  have hcs : (if st'.currentSchema.1.typ = .typeInvalid then
      ({ st'.currentSchema.1 with typ := typeFor (.tStruct p n sf) },
        st'.currentSchema.2)
      else st'.currentSchema) = (cs1, st'.currentSchema.2) := by
    rw [hcs1]; split <;> rfl
  rw [hcs]
  rw [if_neg hinv]
  rcases hvt with h | h <;> rw [h] <;> simp only [hrec]

theorem processField_slice_struct_arm
    (recur : GoType → Option SFSResult) (flt : Option FilterFunc)
    (f : StructField) (st : GenFieldState) (flds : SchemaMap) (metaS : MetaMap)
    (st' : GenFieldState) (p n : GoStr) (sf : List (GoStr × GoType))
    (cs1 : SchemaAttrs) (e : SchemaMap) (m : GenMetaResource)
    (hflt : applyFilter flt (resetState st f) = .ok st')
    (hskip : st'.action ≠ .actionSkip)
    (hderef : dereferencePtrType st'.currentField.2 = .tSlice (.tStruct p n sf))
    (hcs1 : cs1 = (if st'.currentSchema.1.typ = .typeInvalid then
      { st'.currentSchema.1 with typ := typeFor (.tSlice (.tStruct p n sf)) }
      else st'.currentSchema.1))
    (hvt : cs1.typ = .typeList ∨ cs1.typ = .typeSet)
    (hrec : recur (.tStruct p n sf) = some (e, m, none)) :
    processField recur flt f st flds metaS =
      some (commitField st' (cs1, some (.elemResource e)) flds metaS
        (st'.currentField, some m)) := by
  have hinv : cs1.typ ≠ .typeInvalid := by
    rcases hvt with h | h <;> rw [h] <;> intro hcon <;> cases hcon
  simp only [processField, hflt, hderef]
  rw [if_neg hskip]
  have hcs : (if st'.currentSchema.1.typ = .typeInvalid then
      ({ st'.currentSchema.1 with typ := typeFor (.tSlice (.tStruct p n sf)) },
        st'.currentSchema.2)
      else st'.currentSchema) = (cs1, st'.currentSchema.2) := by
    rw [hcs1]; split <;> rfl
  rw [hcs]
  rw [if_neg hinv]
  rcases hvt with h | h <;> rw [h] <;> simp only [hrec]

/-! ## C5: promote collisions -/

/-- C5. The promote merge: an error outcome always carries the message
naming a conflicting key of the merged mapping (the key is a substring
of the message and was already present in the accumulators at that
point); a successful merge never changes an existing binding (no silent
overwrite: every merged key was absent from both accumulators before
the merge); and a merge error aborts the derivation at that field, the
remaining fields never being processed. -/
theorem c5_promote_collision :
    (∀ (e : SchemaMap) (m : GenMetaResource) (flds f' : SchemaMap)
       (metaS m' : MetaMap) (msg : GoStr),
       promoteMerge e m flds metaS = .error (f', m', msg) →
       ∃ k, k ∈ keysOf e ∧ msg = conflictMsg k ∧ k <:+: msg ∧
         (containsKey f' k = true ∨ containsKey m' k = true)) ∧
    (∀ (e : SchemaMap) (m : GenMetaResource) (flds f' : SchemaMap)
       (metaS : MetaMap) (m' : MetaMap),
       promoteMerge e m flds metaS = .ok (f', m') →
       (∀ k, containsKey flds k = true → lookupKey k f' = lookupKey k flds) ∧
       (∀ k, containsKey metaS k = true → lookupKey k m' = lookupKey k metaS) ∧
       (∀ kv ∈ e, containsKey flds kv.1 = false ∧ containsKey metaS kv.1 = false)) ∧
    (∀ (recur : GoType → Option SFSResult) (flt : Option FilterFunc)
       (f : StructField) (rest : List StructField) (st st' : GenFieldState)
       (flds f' : SchemaMap) (metaS m' : MetaMap) (p n : GoStr)
       (sf : List (GoStr × GoType)) (cs1 : SchemaAttrs) (e : SchemaMap)
       (m : GenMetaResource) (msg : GoStr),
       applyFilter flt (resetState st f) = .ok st' →
       st'.action = .actionPromote →
       dereferencePtrType st'.currentField.2 = .tStruct p n sf →
       cs1 = (if st'.currentSchema.1.typ = .typeInvalid then
         { st'.currentSchema.1 with typ := typeFor (.tStruct p n sf) }
         else st'.currentSchema.1) →
       (cs1.typ = .typeList ∨ cs1.typ = .typeSet) →
       recur (.tStruct p n sf) = some (e, m, none) →
       promoteMerge e m flds metaS = .error (f', m', msg) →
       walkFields recur flt (f :: rest) st flds metaS
         = some (f', m', some msg)) := by
  refine ⟨?_, ?_, ?_⟩
  · intro e m
    induction e with
    | nil => intro flds f' metaS m' msg h; simp [promoteMerge] at h
    | cons kv rest ih =>
      rcases kv with ⟨k₀, v₀⟩
      intro flds f' metaS m' msg h
      simp only [promoteMerge] at h
      split at h
      · rcases h with ⟨rfl, rfl, rfl⟩
        refine ⟨k₀, List.mem_cons_self k₀ _, rfl, ?_, ?_⟩
        · exact ⟨str "key \"", str "\" conflicts with key already in the schema",
            by simp [conflictMsg]⟩
        · rename_i hg
          rcases Bool.or_eq_true_iff.mp hg with h' | h'
          · exact Or.inl h'
          · exact Or.inr h'
      · obtain ⟨k, hk, hmsg, hinf, hcont⟩ := ih _ _ _ _ _ h
        exact ⟨k, List.mem_cons_of_mem _ hk, hmsg, hinf, hcont⟩
  · intro e m
    induction e with
    | nil =>
      intro flds f' metaS m' h
      simp only [promoteMerge, Except.ok.injEq] at h
      rcases h with ⟨rfl, rfl⟩
      exact ⟨fun k _ => rfl, fun k _ => rfl, fun kv hkv => absurd hkv (by simp)⟩
    | cons kv rest ih =>
      rcases kv with ⟨k₀, v₀⟩
      intro flds f' metaS m' h
      simp only [promoteMerge] at h
      split at h
      · cases h
      · rename_i hg
        simp only [Bool.or_eq_true_iff, not_or, Bool.not_eq_true] at hg
        obtain ⟨ihf, ihm, ihmem⟩ := ih _ _ _ _ h
        refine ⟨?_, ?_, ?_⟩
        · intro k hk
          have hne : k ≠ k₀ := by
            intro he; rw [he] at hk; rw [hk] at hg; exact Bool.true_eq_false.mp hg.1
          have := ihf k (containsKey_mapInsert_mono hk)
          rw [this, lookupKey_mapInsert, if_neg hne]
        · intro k hk
          have hne : k ≠ k₀ := by
            intro he; rw [he] at hk; rw [hk] at hg; exact Bool.true_eq_false.mp hg.2
          have := ihm k (containsKey_mapInsert_mono hk)
          rw [this, lookupKey_mapInsert, if_neg hne]
        · intro kv hkv
          rcases List.mem_cons.mp hkv with rfl | hkv'
          · exact ⟨hg.1, hg.2⟩
          · obtain ⟨h1, h2⟩ := ihmem kv hkv'
            constructor
            · refine Bool.eq_false_iff.mpr (fun hcon => ?_)
              rw [containsKey_mapInsert_mono hcon] at h1
              exact Bool.true_eq_false.mp h1
            · refine Bool.eq_false_iff.mpr (fun hcon => ?_)
              rw [containsKey_mapInsert_mono hcon] at h2
              exact Bool.true_eq_false.mp h2
  · intro recur flt f rest st st' flds f' metaS m' p n sf cs1 e m msg
      hflt hact hderef hcs1 hvt hrec hpm
    simp only [walkFields]
    rw [processField_struct_arm recur flt f st flds metaS st' p n sf cs1 e m
      hflt (by rw [hact]; intro h; cases h) hderef hcs1 hvt hrec]
    rw [if_pos hact, hpm]

/-- Inner struct with one string field named A. -/
def innerA : GoType := .tStruct (str "schemagen") (str "InnerA") [(str "A", .tString)]

/-- A filter requesting promote for the field named B. -/
def promoteBFilter : FilterFunc :=
  fun st => .ok (if st.currentField.1 = str "B" then
    { st with action := .actionPromote } else st)

/-- Witness for C5: promoting an inner struct whose field a collides
with an already-committed key a aborts with the error naming a. -/
theorem c5_promote_collision_witness :
    walkFields (schemaFromStruct 1 (some promoteBFilter)) (some promoteBFilter)
        [(str "B", innerA)] initialGenFieldState
        [(str "a", bareSchema .typeString)]
        [(str "a", some ((str "A", .tString), none))]
      = some ([(str "a", bareSchema .typeString)],
              [(str "a", some ((str "A", .tString), none))],
              some (conflictMsg (str "a"))) :=
  c5_promote_collision.2.2 (schemaFromStruct 1 (some promoteBFilter))
    (some promoteBFilter) (str "B", innerA) [] initialGenFieldState
    { resetState initialGenFieldState (str "B", innerA) with
        action := .actionPromote }
    [(str "a", bareSchema .typeString)] [(str "a", bareSchema .typeString)]
    [(str "a", some ((str "A", .tString), none))]
    [(str "a", some ((str "A", .tString), none))]
    (str "schemagen") (str "InnerA") [(str "A", .tString)]
    { emptySchema.1 with typ := .typeList }
    [(str "a", bareSchema .typeString)]
    (.mk innerA [(str "a", some ((str "A", .tString), none))])
    (conflictMsg (str "a"))
    rfl rfl rfl rfl (Or.inl rfl) rfl rfl

/-! ## C8: nested composite handling -/

/-- C8. A bare composite field that is not promoted commits an entry
whose element is the recursively derived nested schema and whose
MaxItems is exactly one (overriding whatever the attributes held), the
metadata entry carrying the nested metadata; a slice-of-composite field
commits the nested schema as element with the attributes otherwise
untouched (in particular no MaxItems constraint is added: the committed
attributes are exactly the resolved ones). -/
theorem c8_nested_composites :
    (∀ (recur : GoType → Option SFSResult) (flt : Option FilterFunc)
       (f : StructField) (st st' : GenFieldState) (flds : SchemaMap)
       (metaS : MetaMap) (p n : GoStr) (sf : List (GoStr × GoType))
       (cs1 : SchemaAttrs) (e : SchemaMap) (m : GenMetaResource),
       applyFilter flt (resetState st f) = .ok st' →
       st'.action = .actionDefault →
       dereferencePtrType st'.currentField.2 = .tStruct p n sf →
       cs1 = (if st'.currentSchema.1.typ = .typeInvalid then
         { st'.currentSchema.1 with typ := typeFor (.tStruct p n sf) }
         else st'.currentSchema.1) →
       (cs1.typ = .typeList ∨ cs1.typ = .typeSet) →
       recur (.tStruct p n sf) = some (e, m, none) →
       st'.currentName ≠ [] →
       ∃ st'', processField recur flt f st flds metaS = some (.next st''
         (mapInsert flds st'.currentName
           ({ cs1 with maxItems := 1 }, some (.elemResource e)))
         (mapInsert metaS st'.currentName
           (some (st'.currentField, some m))))) ∧
    (∀ (recur : GoType → Option SFSResult) (flt : Option FilterFunc)
       (f : StructField) (st st' : GenFieldState) (flds : SchemaMap)
       (metaS : MetaMap) (p n : GoStr) (sf : List (GoStr × GoType))
       (cs1 : SchemaAttrs) (e : SchemaMap) (m : GenMetaResource),
       applyFilter flt (resetState st f) = .ok st' →
       st'.action ≠ .actionSkip →
       dereferencePtrType st'.currentField.2 = .tSlice (.tStruct p n sf) →
       cs1 = (if st'.currentSchema.1.typ = .typeInvalid then
         { st'.currentSchema.1 with typ := typeFor (.tSlice (.tStruct p n sf)) }
         else st'.currentSchema.1) →
       (cs1.typ = .typeList ∨ cs1.typ = .typeSet) →
       recur (.tStruct p n sf) = some (e, m, none) →
       st'.currentName ≠ [] →
       ∃ st'', processField recur flt f st flds metaS = some (.next st''
         (mapInsert flds st'.currentName (cs1, some (.elemResource e)))
         (mapInsert metaS st'.currentName
           (some (st'.currentField, some m))))) := by
  constructor
  · intro recur flt f st st' flds metaS p n sf cs1 e m
      hflt hact hderef hcs1 hvt hrec hname
    rw [processField_struct_arm recur flt f st flds metaS st' p n sf cs1 e m
      hflt (by rw [hact]; intro h; cases h) hderef hcs1 hvt hrec]
    rw [if_neg (by rw [hact]; intro h; cases h)]
    simp only [commitField, if_neg hname]
    exact ⟨_, rfl⟩
  · intro recur flt f st st' flds metaS p n sf cs1 e m
      hflt hskip hderef hcs1 hvt hrec hname
    rw [processField_slice_struct_arm recur flt f st flds metaS st' p n sf cs1 e m
      hflt hskip hderef hcs1 hvt hrec]
    simp only [commitField, if_neg hname]
    exact ⟨_, rfl⟩

/-- Witness for C8 at concrete subjects: the bare composite field of
ncType and the slice-of-composite field of scType. -/
theorem c8_nested_composites_witness :
    (∃ st'', processField (schemaFromStruct 2 none) none
        (str "NestedComplex", nbType) initialGenFieldState [] []
      = some (.next st''
        (mapInsert [] (str "nested_complex")
          ({ { emptySchema.1 with typ := .typeList } with maxItems := 1 },
           some (.elemResource [(str "foo", bareSchema .typeString)])))
        (mapInsert [] (str "nested_complex")
          (some ((str "NestedComplex", nbType),
                 some (.mk nbType [(str "foo", some ((str "Foo", .tString), none))])))))) ∧
    (∃ st'', processField (schemaFromStruct 2 none) none
        (str "SliceComplex", .tSlice nbType) initialGenFieldState [] []
      = some (.next st''
        (mapInsert [] (str "slice_complex")
          ({ emptySchema.1 with typ := .typeSet },
           some (.elemResource [(str "foo", bareSchema .typeString)])))
        (mapInsert [] (str "slice_complex")
          (some ((str "SliceComplex", .tSlice nbType),
                 some (.mk nbType [(str "foo", some ((str "Foo", .tString), none))])))))) :=
  ⟨c8_nested_composites.1 (schemaFromStruct 2 none) none
      (str "NestedComplex", nbType) initialGenFieldState
      (resetState initialGenFieldState (str "NestedComplex", nbType)) [] []
      (str "schemagen") (str "TestNestedBase") [(str "Foo", .tString)]
      { emptySchema.1 with typ := .typeList }
      [(str "foo", bareSchema .typeString)]
      (.mk nbType [(str "foo", some ((str "Foo", .tString), none))])
      rfl rfl rfl rfl (Or.inl rfl) rfl (by decide),
   c8_nested_composites.2 (schemaFromStruct 2 none) none
      (str "SliceComplex", .tSlice nbType) initialGenFieldState
      (resetState initialGenFieldState (str "SliceComplex", .tSlice nbType)) [] []
      (str "schemagen") (str "TestNestedBase") [(str "Foo", .tString)]
      { emptySchema.1 with typ := .typeSet }
      [(str "foo", bareSchema .typeString)]
      (.mk nbType [(str "foo", some ((str "Foo", .tString), none))])
      rfl (by decide) rfl rfl (Or.inr rfl) rfl (by decide)⟩

/-! ## C7: silent omission of unclassifiable and unnamed fields -/

/-- C7. A field whose schema kind is still unset after filtering and
whose effective type the classifier cannot classify is skipped with the
accumulators untouched and no error; a field whose emitted name is
empty after filtering (and which is not promoted) adds nothing to the
schema mapping or the metadata whenever its iteration completes without
error; and concretely, deriving a struct with one opaque interface
field succeeds with an empty mapping, an expand function body that
never mentions the field, and a serialized schema containing no entry. -/
theorem c7_silent_omission :
    (∀ (recur : GoType → Option SFSResult) (flt : Option FilterFunc)
       (f : StructField) (st : GenFieldState) (flds : SchemaMap)
       (metaS : MetaMap) (st' : GenFieldState),
       applyFilter flt (resetState st f) = .ok st' →
       st'.currentSchema.1.typ = .typeInvalid →
       typeFor (dereferencePtrType st'.currentField.2) = .typeInvalid →
       ∃ st'', processField recur flt f st flds metaS
         = some (.next st'' flds metaS)) ∧
    (∀ (recur : GoType → Option SFSResult) (flt : Option FilterFunc)
       (f : StructField) (st st' st'' : GenFieldState) (flds flds' : SchemaMap)
       (metaS metaS' : MetaMap),
       applyFilter flt (resetState st f) = .ok st' →
       st'.currentName = [] →
       st'.action ≠ .actionPromote →
       processField recur flt f st flds metaS = some (.next st'' flds' metaS') →
       flds' = flds ∧ metaS' = metaS) ∧
    (schemaFromStruct 2 none ifaceType = some ([], .mk ifaceType [], none) ∧
     expandFprint 2 (.mk ifaceType []) []
       = some [str "func expandTestIface(d *schema.ResourceData) schemagen.TestIface \x7b\n\tobj := schemagen.TestIface\x7b\x7d\n\treturn obj\n\x7d"] ∧
     ¬ (str "Opaque" <:+:
        str "func expandTestIface(d *schema.ResourceData) schemagen.TestIface \x7b\n\tobj := schemagen.TestIface\x7b\x7d\n\treturn obj\n\x7d") ∧
     runGen 2 none ifaceType (str "out")
       = some (.ok (str "import (\n\t\"github.com/hashicorp/terraform/helper/schema\")\n\nvar out = map[string]*schema.Schema\x7b\n\x7d\n"))) := by
  refine ⟨?_, ?_, rfl, rfl, by decide, rfl⟩
  · intro recur flt f st flds metaS st' hflt hinv htf
    simp only [processField, hflt]
    by_cases hskip : st'.action = .actionSkip
    · rw [if_pos hskip]
      exact ⟨st', rfl⟩
    · rw [if_neg hskip]
      rw [if_pos hinv]
      have h2 : ({ st'.currentSchema.1 with
          typ := typeFor (dereferencePtrType st'.currentField.2) },
          st'.currentSchema.2).1.typ = ValueType.typeInvalid := htf
      rw [if_pos h2]
      exact ⟨_, rfl⟩
  · intro recur flt f st st' st'' flds flds' metaS metaS' hflt hname hprom hrun
    simp only [processField, hflt] at hrun
    by_cases hskip : st'.action = .actionSkip
    · rw [if_pos hskip] at hrun
      simp only [Option.some.injEq, StepRes.next.injEq] at hrun
      exact ⟨hrun.2.1.symm, hrun.2.2.symm⟩
    · rw [if_neg hskip] at hrun
      repeat' split at hrun
      all_goals first
        | (cases hrun <;> exact ⟨rfl, rfl⟩)
        | exact absurd ‹st'.action = .actionPromote› hprom
        | (simp only [commitField, if_pos hname, Option.some.injEq,
             StepRes.next.injEq] at hrun
           exact ⟨hrun.2.1.symm, hrun.2.2.symm⟩)

/-- A filter wiping the emitted field name. -/
def wipeNameFilter : FilterFunc := fun st => .ok { st with currentName := [] }

/-- Witness for C7: an opaque interface field is skipped silently, and
a field whose name a filter wiped adds nothing. -/
theorem c7_silent_omission_witness :
    (∃ st'', processField (schemaFromStruct 1 none) none
        (str "Opaque", .tInterface) initialGenFieldState [] []
      = some (.next st'' [] [])) ∧
    (([] : SchemaMap) = [] ∧ ([] : MetaMap) = []) :=
  ⟨c7_silent_omission.1 (schemaFromStruct 1 none) none (str "Opaque", .tInterface)
      initialGenFieldState [] []
      (resetState initialGenFieldState (str "Opaque", .tInterface)) rfl rfl rfl,
   c7_silent_omission.2.1 (schemaFromStruct 1 none) (some wipeNameFilter)
      (str "A", .tString) initialGenFieldState
      { resetState initialGenFieldState (str "A", .tString) with currentName := [] }
      { resetState initialGenFieldState (str "A", .tString) with
          currentName := [], currentSchema := bareSchema .typeString }
      [] [] [] [] rfl rfl (by decide) rfl⟩

/-! ## C9: the serializer -/

theorem strLe_total : ∀ a b : GoStr, strLe a b = true ∨ strLe b a = true := by
  intro a
  induction a with
  | nil => intro b; exact Or.inl rfl
  | cons c as ih =>
    intro b
    cases b with
    | nil => exact Or.inr rfl
    | cons d bs =>
      rcases lt_trichotomy c d with h | h | h
      · left; simp [strLe, h]
      · subst h
        rcases ih bs with h' | h'
        · left; simp [strLe, lt_irrefl, h']
        · right; simp [strLe, lt_irrefl, h']
      · right; simp [strLe, h]

theorem strLe_trans : ∀ a b c : GoStr,
    strLe a b = true → strLe b c = true → strLe a c = true := by
  intro a
  induction a with
  | nil => intro b c _ _; rfl
  | cons x as ih =>
    intro b c hab hbc
    cases b with
    | nil => simp [strLe] at hab
    | cons y bs =>
      cases c with
      | nil => simp [strLe] at hbc
      | cons z cs =>
        simp only [strLe] at hab hbc ⊢
        rcases lt_trichotomy x y with hxy | hxy | hxy
        · rcases lt_trichotomy y z with hyz | hyz | hyz
          · simp [lt_trans hxy hyz]
          · subst hyz; simp [hxy]
          · rw [if_neg (lt_asymm hyz), if_pos hyz] at hbc
            exact absurd hbc (by simp)
        · subst hxy
          rcases lt_trichotomy x z with hyz | hyz | hyz
          · simp [hyz]
          · subst hyz
            rw [if_neg (lt_irrefl x), if_neg (lt_irrefl x)] at hab hbc ⊢
            exact ih bs cs hab hbc
          · rw [if_neg (lt_asymm hyz), if_pos hyz] at hbc
            exact absurd hbc (by simp)
        · rw [if_neg (lt_asymm hxy), if_pos hxy] at hab
          exact absurd hab (by simp)

theorem strLe_antisymm : ∀ a b : GoStr,
    strLe a b = true → strLe b a = true → a = b := by
  intro a
  induction a with
  | nil =>
    intro b _ hba
    cases b with
    | nil => rfl
    | cons d bs => simp [strLe] at hba
  | cons c as ih =>
    intro b hab hba
    cases b with
    | nil => simp [strLe] at hab
    | cons d bs =>
      simp only [strLe] at hab hba
      rcases lt_trichotomy c d with h | h | h
      · rw [if_neg (lt_asymm h), if_pos h] at hba
        exact absurd hba (by simp)
      · subst h
        rw [if_neg (lt_irrefl c), if_neg (lt_irrefl c)] at hab hba
        rw [ih bs hab hba]
      · rw [if_neg (lt_asymm h), if_pos h] at hab
        exact absurd hab (by simp)

instance : IsTotal GoStr (fun a b => strLe a b = true) := ⟨strLe_total⟩
instance : IsTrans GoStr (fun a b => strLe a b = true) := ⟨strLe_trans⟩
instance : IsAntisymm GoStr (fun a b => strLe a b = true) := ⟨strLe_antisymm⟩

theorem sortStrings_sorted (l : List GoStr) :
    List.Sorted (fun a b => strLe a b = true) (sortStrings l) :=
  List.sorted_insertionSort _ l

theorem sortStrings_perm (l : List GoStr) : (sortStrings l).Perm l :=
  List.perm_insertionSort _ l

theorem sortStrings_eq_of_perm {l l' : List GoStr} (h : l.Perm l') :
    sortStrings l = sortStrings l' :=
  List.eq_of_perm_of_sorted
    ((sortStrings_perm l).trans (h.trans (sortStrings_perm l').symm))
    (sortStrings_sorted l) (sortStrings_sorted l')

theorem containsKey_iff_mem {α : Type} {m : List (GoStr × α)} {k : GoStr} :
    containsKey m k = true ↔ k ∈ keysOf m := by
  simp only [containsKey, List.any_eq_true, keysOf, List.mem_map,
    decide_eq_true_eq]

theorem keys_perm_of_lookup_eq {α : Type} {s s' : List (GoStr × α)}
    (h1 : (keysOf s).Nodup) (h2 : (keysOf s').Nodup)
    (h : ∀ k, lookupKey k s = lookupKey k s') : (keysOf s).Perm (keysOf s') := by
  apply List.perm_of_nodup_nodup_toFinset_eq h1 h2
  ext k
  simp only [List.mem_toFinset]
  rw [← containsKey_iff_mem, ← containsKey_iff_mem,
    lookupKey_contains, lookupKey_contains, h k]

theorem renderEntries_congr
    (recur : SchemaMap → TabPrinter × GoStr → Option (TabPrinter × GoStr))
    {s s' : SchemaMap} (h : ∀ k, lookupKey k s = lookupKey k s') :
    ∀ (keys : List GoStr) (pw : TabPrinter × GoStr),
      renderEntries recur s keys pw = renderEntries recur s' keys pw := by
  intro keys
  induction keys with
  | nil => intro pw; rfl
  | cons k ks ih =>
    intro pw
    simp only [renderEntries, h k]
    cases lookupKey k s' with
    | none => exact ih pw
    | some v =>
      dsimp only
      cases renderEntry recur k v pw with
      | none => rfl
      | some pw' => exact ih pw'

theorem length_ite_nil_single {c : Prop} [inst : Decidable c] (x : GoStr) :
    (if c then ([] : List GoStr) else [x]).length = if c then 0 else 1 := by
  split <;> rfl

/-- A schema attribute record carrying the non-default attributes of
the repository's filtered, additional attributes test case. -/
def multiAttr : SchemaAttrs := { emptySchema.1 with
  typ := .typeString
  required := true
  defaultVal := some (.pString (str "barfoo"))
  description := str "foobar" }

/-- C9. The serializer renders entries in lexicographically sorted key
order (the key sequence it iterates is a sorted permutation of the
mapping's keys); an entry holding only a value kind renders exactly the
Type line (every default-valued attribute is omitted); the worked
multi-attribute entry renders exactly its non-default attribute lines;
function-valued and caseless slice-valued attributes never contribute
output; the number of attribute lines equals the number of non-default
attributes; and serialization is a function of the map contents alone:
two mappings with equal lookups (in any insertion order) render
identically. -/
theorem c9_serializer :
    (∀ l : List GoStr, List.Sorted (fun a b => strLe a b = true) (sortStrings l)
       ∧ (sortStrings l).Perm l) ∧
    (∀ t : ValueType, t ≠ .typeInvalid →
       attrWritesPre { emptySchema.1 with typ := t }
         = [str "Type: schema." ++ valueTypeName t ++ str ",\n"] ∧
       attrWritesPost { emptySchema.1 with typ := t } = []) ∧
    (attrWritesPre multiAttr
      = [str "Type: schema.TypeString,\n", str "Required: true,\n",
         str "Default: \"barfoo\",\n", str "Description: \"foobar\",\n"]) ∧
    (∀ (a : SchemaAttrs) (b : Bool) (l : List GoStr),
       attrWritesPre { a with diffSuppressFunc := b } = attrWritesPre a ∧
       attrWritesPost { a with conflictsWith := l } = attrWritesPost a) ∧
    (∀ a : SchemaAttrs,
       (attrWritesPre a).length =
         (if a.typ = .typeInvalid then 0 else 1) + (if a.optional = false then 0 else 1)
         + (if a.required = false then 0 else 1)
         + (match a.defaultVal with | none => 0 | some _ => 1)
         + (if a.description = [] then 0 else 1)
         + (if a.inputDefault = [] then 0 else 1)
         + (if a.computed = false then 0 else 1)
         + (if a.forceNew = false then 0 else 1) ∧
       (attrWritesPost a).length =
         (if a.maxItems = 0 then 0 else 1) + (if a.minItems = 0 then 0 else 1)
         + (if a.deprecated = [] then 0 else 1) + (if a.removed = [] then 0 else 1)
         + (if a.sensitive = false then 0 else 1)) ∧
    (∀ (fuel : Nat) (s s' : SchemaMap) (pw : TabPrinter × GoStr),
       (keysOf s).Nodup → (keysOf s').Nodup →
       (∀ k, lookupKey k s = lookupKey k s') →
       schemaFprint fuel s pw = schemaFprint fuel s' pw) := by
  refine ⟨fun l => ⟨sortStrings_sorted l, sortStrings_perm l⟩, ?_, rfl, ?_, ?_, ?_⟩
  · intro t h
    constructor <;> simp [attrWritesPre, attrWritesPost, emptySchema, h]
  · intro a b l
    exact ⟨rfl, rfl⟩
  · intro a
    constructor
    · simp only [attrWritesPre, List.length_append, length_ite_nil_single]
      cases a.defaultVal <;> simp
    · simp only [attrWritesPost, List.length_append, length_ite_nil_single]
  · intro fuel s s' pw h1 h2 h
    cases fuel with
    | zero => rfl
    | succ n =>
      simp only [schemaFprint]
      rw [sortStrings_eq_of_perm (keys_perm_of_lookup_eq h1 h2 h),
        renderEntries_congr (schemaFprint n) h]

/-- Witness for C9: the sorted order at a concrete key list, and equal
rendering of a two-entry mapping given in both insertion orders. -/
theorem c9_serializer_witness :
    List.Sorted (fun a b => strLe a b = true) (sortStrings [str "b", str "a"]) ∧
    schemaFprint 1 [(str "b", bareSchema .typeInt), (str "a", bareSchema .typeString)]
        (TabPrinter.new 0, [])
      = schemaFprint 1 [(str "a", bareSchema .typeString), (str "b", bareSchema .typeInt)]
        (TabPrinter.new 0, []) :=
  ⟨(c9_serializer.1 [str "b", str "a"]).1,
   c9_serializer.2.2.2.2.2 1
     [(str "b", bareSchema .typeInt), (str "a", bareSchema .typeString)]
     [(str "a", bareSchema .typeString), (str "b", bareSchema .typeInt)]
     (TabPrinter.new 0, []) (by decide) (by decide)
     (by
       intro k
       by_cases h1 : k = str "b"
       · subst h1; rfl
       · by_cases h2 : k = str "a"
         · subst h2; rfl
         · simp [lookupKey, h1, h2])⟩

/-! ## C6: structural symmetry of schema mapping and metadata tree -/

/-- Every key of the first mapping occurs in the second. -/
def keysSub {α β : Type} (f : List (GoStr × α)) (mm : List (GoStr × β)) : Bool :=
  f.all (fun p => containsKey mm p.1)

/-- Symmetry of one schema entry against its metadata entry: a nested
resource on the schema side must be matched by a nested metadata
resource whose mapping is symmetric in turn (through the supplied
recursion); a missing counterpart is symmetric only when the orphaned
level holds no keys. -/
def symEntryWith (recur : SchemaMap → MetaMap → Bool) :
    GoSchema → GenMetaSchema → Bool
  | (_, some (.elemResource e)), (_, some m) => recur e (GenMetaResource.schema m)
  | (_, some (.elemResource e)), (_, none) => e.isEmpty
  | (_, some (.elemSchema _)), (_, some m) => (GenMetaResource.schema m).isEmpty
  | (_, some (.elemSchema _)), (_, none) => true
  | (_, none), (_, some m) => (GenMetaResource.schema m).isEmpty
  | (_, none), (_, none) => true

/-- Every schema entry has a present (non-nil) metadata counterpart
that is entry-symmetric to it. -/
def symLookWith (recur : SchemaMap → MetaMap → Bool) :
    SchemaMap → MetaMap → Bool
  | [], _ => true
  | (k, sch) :: rest, mm =>
    (match lookupKey k mm with
     | some (some me) => symEntryWith recur sch me
     | _ => false) && symLookWith recur rest mm

/-- Structural symmetry of a schema mapping and a metadata mapping, to
the given nesting depth: equal key sets and entry-wise symmetry at
every level. -/
def symMaps : Nat → SchemaMap → MetaMap → Bool
  | 0, _, _ => false
  | n + 1, f, mm =>
    keysSub f mm && keysSub mm f && symLookWith (symMaps n) f mm

/-- A struct with a single string field named A. -/
def oneStr : GoType :=
  .tStruct (str "schemagen") (str "OneString") [(str "A", .tString)]

/-- A filter that attaches a nested resource element specification to
the schema of every field (and settles the kind so the walker keeps the
schema as-is). -/
def elemInjectFilter : FilterFunc :=
  fun st => .ok { st with currentSchema :=
    ({ st.currentSchema.1 with typ := .typeString },
     some (.elemResource [(str "x", bareSchema .typeString)])) }

/-- Counterexample to C6 as stated: with a filter that injects an
element resource, the derivation succeeds but the schema mapping has a
nested level (key x under a) with no counterpart anywhere in the
metadata tree, at any depth bound. -/
theorem c6_counterexample :
    schemaFromStruct 2 (some elemInjectFilter) oneStr
      = some ([(str "a", ({ emptySchema.1 with typ := .typeString },
                some (.elemResource [(str "x", bareSchema .typeString)])))],
              .mk oneStr [(str "a", some ((str "A", .tString), none))], none) ∧
    symMaps 2
        [(str "a", ({ emptySchema.1 with typ := .typeString },
          some (.elemResource [(str "x", bareSchema .typeString)])))]
        [(str "a", some ((str "A", .tString), none))] = false ∧
    (∀ n, symMaps (n + 1)
        [(str "a", ({ emptySchema.1 with typ := .typeString },
          some (.elemResource [(str "x", bareSchema .typeString)])))]
        [(str "a", some ((str "A", .tString), none))] = false) :=
  ⟨rfl, rfl, fun _ => rfl⟩

theorem containsKey_mapInsert_self {α : Type} {m : List (GoStr × α)}
    {k : GoStr} {v : α} : containsKey (mapInsert m k v) k = true := by
  rw [containsKey_mapInsert, decide_eq_true rfl, Bool.true_or]

theorem keysSub_iff {α β : Type} {f : List (GoStr × α)} {mm : List (GoStr × β)} :
    keysSub f mm = true ↔ ∀ p ∈ f, containsKey mm p.1 = true := by
  unfold keysSub
  exact List.all_eq_true

theorem symLook_iff {r : SchemaMap → MetaMap → Bool} {f : SchemaMap}
    {mm : MetaMap} :
    symLookWith r f mm = true ↔
      ∀ p ∈ f, ∃ me, lookupKey p.1 mm = some (some me) ∧
        symEntryWith r p.2 me = true := by
  induction f with
  | nil =>
    constructor
    · intro _ p hp
      exact absurd hp (List.not_mem_nil p)
    · intro _
      rfl
  | cons q rest ih =>
    rcases q with ⟨k, sch⟩
    constructor
    · intro h
      simp only [symLookWith, Bool.and_eq_true] at h
      obtain ⟨hh, ht⟩ := h
      intro p hp
      rcases List.mem_cons.mp hp with rfl | hp'
      · cases hl : lookupKey k mm with
        | none => rw [hl] at hh; cases hh
        | some o =>
          cases o with
          | none => rw [hl] at hh; cases hh
          | some me =>
            rw [hl] at hh
            exact ⟨me, rfl, hh⟩
      · exact (ih.mp ht) p hp'
    · intro hp
      simp only [symLookWith, Bool.and_eq_true]
      refine ⟨?_,
        ih.mpr (fun p hpr => hp p (List.mem_cons_of_mem _ hpr))⟩
      obtain ⟨me, hl, hs⟩ := hp (k, sch) (List.mem_cons_self _ _)
      rw [hl]
      exact hs

theorem mem_mapInsert {α : Type} {m : List (GoStr × α)} {k : GoStr} {v : α}
    {p : GoStr × α} (h : p ∈ mapInsert m k v) :
    p = (k, v) ∨ (p ∈ m ∧ ¬ p.1 = k) := by
  by_cases hc : containsKey m k = true
  · simp only [mapInsert, hc, if_true] at h
    obtain ⟨q, hq, he⟩ := List.mem_map.mp h
    by_cases hqk : q.1 = k
    · rw [if_pos hqk] at he
      exact Or.inl he.symm
    · rw [if_neg hqk] at he
      subst he
      exact Or.inr ⟨hq, hqk⟩
  · simp only [Bool.not_eq_true] at hc
    rw [mapInsert_of_not_contains hc] at h
    rcases List.mem_append.mp h with h' | h'
    · right
      refine ⟨h', fun he => ?_⟩
      have : containsKey m k = true := by
        rw [containsKey_iff_mem]
        rw [← he]
        exact List.mem_map_of_mem Prod.fst h'
      rw [this] at hc
      exact Bool.true_eq_false.mp hc
    · exact Or.inl (List.mem_singleton.mp h')

/-- Inserting an entry-symmetric pair under the same key into both maps
preserves the symmetry invariant. -/
theorem sym_insert {r : SchemaMap → MetaMap → Bool} {f : SchemaMap}
    {mm : MetaMap} {k : GoStr} {cs : GoSchema} {ms : GenMetaSchema}
    (h1 : keysSub f mm = true) (h2 : keysSub mm f = true)
    (h3 : symLookWith r f mm = true)
    (hent : symEntryWith r cs ms = true) :
    keysSub (mapInsert f k cs) (mapInsert mm k (some ms)) = true ∧
    keysSub (mapInsert mm k (some ms)) (mapInsert f k cs) = true ∧
    symLookWith r (mapInsert f k cs) (mapInsert mm k (some ms)) = true := by
  refine ⟨?_, ?_, ?_⟩
  · rw [keysSub_iff]
    intro p hp
    rcases mem_mapInsert hp with rfl | ⟨hpm, hpk⟩
    · exact containsKey_mapInsert_self
    · rw [containsKey_mapInsert]
      rw [keysSub_iff.mp h1 p hpm, Bool.or_true]
  · rw [keysSub_iff]
    intro p hp
    rcases mem_mapInsert hp with rfl | ⟨hpm, hpk⟩
    · exact containsKey_mapInsert_self
    · rw [containsKey_mapInsert]
      rw [keysSub_iff.mp h2 p hpm, Bool.or_true]
  · rw [symLook_iff]
    intro p hp
    rcases mem_mapInsert hp with rfl | ⟨hpm, hpk⟩
    · refine ⟨ms, ?_, hent⟩
      rw [lookupKey_mapInsert, if_pos rfl]
    · obtain ⟨me, hl, hs⟩ := symLook_iff.mp h3 p hpm
      refine ⟨me, ?_, hs⟩
      rw [lookupKey_mapInsert, if_neg hpk, hl]

theorem symEntryWith_mono {r r' : SchemaMap → MetaMap → Bool}
    (hr : ∀ x y, r x y = true → r' x y = true) :
    ∀ (sch : GoSchema) (me : GenMetaSchema),
      symEntryWith r sch me = true → symEntryWith r' sch me = true := by
  intro sch me h
  rcases sch with ⟨a, el⟩
  rcases me with ⟨fd, mel⟩
  cases el with
  | none => cases mel <;> simpa [symEntryWith] using h
  | some es =>
    cases es with
    | elemSchema t => cases mel <;> simpa [symEntryWith] using h
    | elemResource e =>
      cases mel with
      | none => simpa [symEntryWith] using h
      | some m =>
        simp only [symEntryWith] at h ⊢
        exact hr _ _ h

theorem symLookWith_mono {r r' : SchemaMap → MetaMap → Bool}
    (hr : ∀ x y, r x y = true → r' x y = true) :
    ∀ (f : SchemaMap) (mm : MetaMap),
      symLookWith r f mm = true → symLookWith r' f mm = true := by
  intro f mm h
  rw [symLook_iff] at h ⊢
  intro p hp
  obtain ⟨me, hl, hs⟩ := h p hp
  exact ⟨me, hl, symEntryWith_mono hr p.2 me hs⟩

theorem symMaps_mono : ∀ (n : Nat) (f : SchemaMap) (mm : MetaMap),
    symMaps n f mm = true → symMaps (n + 1) f mm = true := by
  intro n
  induction n with
  | zero => intro f mm h; simp [symMaps] at h
  | succ k ih =>
    intro f mm h
    simp only [symMaps, Bool.and_eq_true] at h ⊢
    exact ⟨⟨h.1.1, h.1.2⟩, symLookWith_mono ih f mm h.2⟩

/-- A successful promote merge of an entry-wise symmetric nested pair
preserves the symmetry invariant. -/
theorem promote_sym {r : SchemaMap → MetaMap → Bool} :
    ∀ (e : SchemaMap) (m : GenMetaResource) (flds flds' : SchemaMap)
      (metaS metaS' : MetaMap),
      keysSub flds metaS = true → keysSub metaS flds = true →
      symLookWith r flds metaS = true →
      (∀ p ∈ e, ∃ me, lookupKey p.1 (GenMetaResource.schema m) = some (some me) ∧
        symEntryWith r p.2 me = true) →
      promoteMerge e m flds metaS = .ok (flds', metaS') →
      keysSub flds' metaS' = true ∧ keysSub metaS' flds' = true ∧
        symLookWith r flds' metaS' = true := by
  intro e
  induction e with
  | nil =>
    intro m flds flds' metaS metaS' h1 h2 h3 _ h
    simp only [promoteMerge, Except.ok.injEq] at h
    rcases h with ⟨rfl, rfl⟩
    exact ⟨h1, h2, h3⟩
  | cons q rest ih =>
    rcases q with ⟨k₀, v₀⟩
    intro m flds flds' metaS metaS' h1 h2 h3 hsym h
    simp only [promoteMerge] at h
    split at h
    · cases h
    · obtain ⟨me, hl, hs⟩ := hsym (k₀, v₀) (List.mem_cons_self _ _)
      have hstore : (lookupKey k₀ (GenMetaResource.schema m)).getD none = some me := by
        rw [hl]; rfl
      rw [hstore] at h
      obtain ⟨g1, g2, g3⟩ := sym_insert h1 h2 h3 hs
      exact ih m _ flds' _ metaS' g1 g2 g3
        (fun p hp => hsym p (List.mem_cons_of_mem _ hp)) h

/-- A commit of an entry-symmetric pair preserves the symmetry
invariant (the empty-name case commits nothing). -/
theorem commit_sym {r : SchemaMap → MetaMap → Bool} {stf st'' : GenFieldState}
    {cs : GoSchema} {flds flds' : SchemaMap} {metaS metaS' : MetaMap}
    {ms : GenMetaSchema}
    (h1 : keysSub flds metaS = true) (h2 : keysSub metaS flds = true)
    (h3 : symLookWith r flds metaS = true)
    (hent : symEntryWith r cs ms = true)
    (heq : some (commitField stf cs flds metaS ms)
      = some (StepRes.next st'' flds' metaS')) :
    keysSub flds' metaS' = true ∧ keysSub metaS' flds' = true ∧
      symLookWith r flds' metaS' = true := by
  simp only [Option.some.injEq] at heq
  unfold commitField at heq
  split at heq
  · cases heq
    exact ⟨h1, h2, h3⟩
  · cases heq
    exact sym_insert h1 h2 h3 hent

/-- The entry-wise consequence of nested symmetry, lifted one fuel
level for reuse at the enclosing level. -/
theorem symMaps_entries {n : Nat} {e : SchemaMap} {m : GenMetaResource}
    (hnested : symMaps n e (GenMetaResource.schema m) = true) :
    ∀ p ∈ e, ∃ me, lookupKey p.1 (GenMetaResource.schema m) = some (some me) ∧
      symEntryWith (symMaps n) p.2 me = true := by
  cases n with
  | zero => simp [symMaps] at hnested
  | succ k =>
    simp only [symMaps, Bool.and_eq_true] at hnested
    intro p hp
    obtain ⟨me, hme, hs⟩ := symLook_iff.mp hnested.2 p hp
    exact ⟨me, hme, symEntryWith_mono (symMaps_mono k) p.2 me hs⟩

/-- A schema entry with no element specification is symmetric to a
metadata entry with no nested resource. -/
theorem symEntryWith_none (r : SchemaMap → MetaMap → Bool) (cs : GoSchema)
    (fm : StructField) (hcs : cs.2 = none) :
    symEntryWith r cs (fm, none) = true := by
  obtain ⟨a, el⟩ := cs
  cases hcs
  rfl

/-- One iteration of the walk preserves the symmetry invariant, given
that nested derivations at the remaining fuel yield symmetric pairs and
that filters do not set the element specification. -/
theorem process_sym (n : Nat) (flt : Option FilterFunc)
    (hf : ∀ g, flt = some g → ∀ st r, g st = .ok r → r.currentSchema.2 = none)
    (hA : ∀ subj e m, schemaFromStruct n flt subj = some (e, m, none) →
      symMaps n e (GenMetaResource.schema m) = true)
    (f : StructField) (st st' : GenFieldState) (flds flds' : SchemaMap)
    (metaS metaS' : MetaMap)
    (h1 : keysSub flds metaS = true) (h2 : keysSub metaS flds = true)
    (h3 : symLookWith (symMaps n) flds metaS = true)
    (hrun : processField (schemaFromStruct n flt) flt f st flds metaS
      = some (.next st' flds' metaS')) :
    keysSub flds' metaS' = true ∧ keysSub metaS' flds' = true ∧
      symLookWith (symMaps n) flds' metaS' = true := by
  cases hflt : applyFilter flt (resetState st f) with
  | error e =>
    simp only [processField, hflt] at hrun
    cases hrun
  | ok stf =>
    have helem : stf.currentSchema.2 = none := by
      cases flt with
      | none =>
        simp only [applyFilter, Except.ok.injEq] at hflt
        rw [← hflt]
        rfl
      | some g =>
        exact hf g rfl _ _ (by simpa [applyFilter] using hflt)
    simp only [processField, hflt] at hrun
    by_cases hskip : stf.action = .actionSkip
    · rw [if_pos hskip] at hrun
      cases hrun
      exact ⟨h1, h2, h3⟩
    · rw [if_neg hskip] at hrun
      repeat' split at hrun
      all_goals first
        | (cases hrun <;> exact ⟨h1, h2, h3⟩)
        | (refine commit_sym h1 h2 h3 ?_ hrun
           first
             | rfl
             | exact symEntryWith_none _ _ _ helem
             | (simp only [symEntryWith]
                exact hA _ _ _ (by assumption)))
        | (cases hrun
           exact promote_sym _ _ _ _ _ _ h1 h2 h3
             (symMaps_entries (hA _ _ _ (by assumption))) (by assumption))

/-- The field walk preserves the symmetry invariant through to a
successful (error-free) completion. -/
theorem walk_sym (n : Nat) (flt : Option FilterFunc)
    (hf : ∀ g, flt = some g → ∀ st r, g st = .ok r → r.currentSchema.2 = none)
    (hA : ∀ subj e m, schemaFromStruct n flt subj = some (e, m, none) →
      symMaps n e (GenMetaResource.schema m) = true) :
    ∀ (fields : List StructField) (st : GenFieldState)
      (flds flds' : SchemaMap) (metaS metaS' : MetaMap),
    keysSub flds metaS = true → keysSub metaS flds = true →
    symLookWith (symMaps n) flds metaS = true →
    walkFields (schemaFromStruct n flt) flt fields st flds metaS
      = some (flds', metaS', none) →
    keysSub flds' metaS' = true ∧ keysSub metaS' flds' = true ∧
      symLookWith (symMaps n) flds' metaS' = true := by
  intro fields
  induction fields with
  | nil =>
    intro st flds flds' metaS metaS' h1 h2 h3 hw
    simp only [walkFields, Option.some.injEq, Prod.mk.injEq] at hw
    obtain ⟨ha, hb, -⟩ := hw
    subst ha
    subst hb
    exact ⟨h1, h2, h3⟩
  | cons f rest ih =>
    intro st flds flds' metaS metaS' h1 h2 h3 hw
    simp only [walkFields] at hw
    cases hp : processField (schemaFromStruct n flt) flt f st flds metaS with
    | none =>
      rw [hp] at hw
      cases hw
    | some sr =>
      rw [hp] at hw
      cases sr with
      | abort fl me e => simp at hw
      | next st₁ fl me =>
        have hinv := process_sym n flt hf hA f st st₁ flds fl metaS me h1 h2 h3 hp
        exact ih st₁ fl flds' me metaS' hinv.1 hinv.2.1 hinv.2.2 hw

/-- C6 (amended): whenever the filter never sets CurrentSchema.Elem on
the states it returns, a successful derivation yields a schema map and
a metadata map with identical key sets in which every complex (resource)
element corresponds to the nested metadata entry and vice versa,
recursively (the original claim fails for filters that inject Elem: see
the counterexample). -/
theorem c6_amended_symmetry (fuel : Nat) (flt : Option FilterFunc)
    (hf : ∀ g, flt = some g → ∀ st r, g st = .ok r → r.currentSchema.2 = none) :
    ∀ (subj : GoType) (flds : SchemaMap) (m : GenMetaResource),
    schemaFromStruct fuel flt subj = some (flds, m, none) →
    symMaps fuel flds (GenMetaResource.schema m) = true := by
  induction fuel with
  | zero =>
    intro subj flds m hd
    simp [schemaFromStruct] at hd
  | succ n ih =>
    intro subj flds m hd
    simp only [schemaFromStruct] at hd
    cases hw : walkFields (schemaFromStruct n flt) flt
        (structFields (dereferencePtrType subj)) initialGenFieldState [] [] with
    | none =>
      rw [hw] at hd
      cases hd
    | some res =>
      obtain ⟨fl, me, e⟩ := res
      rw [hw] at hd
      simp only [Option.some.injEq, Prod.mk.injEq] at hd
      obtain ⟨hfl, hm, he⟩ := hd
      subst hfl
      subst he
      subst hm
      have hinv := walk_sym n flt hf (fun s e' m' h => ih s e' m' h)
        (structFields (dereferencePtrType subj)) initialGenFieldState
        [] fl [] me rfl rfl rfl hw
      simp only [GenMetaResource.schema, symMaps, Bool.and_eq_true]
      exact ⟨⟨hinv.1, hinv.2.1⟩, hinv.2.2⟩

/-- Witness: the nested-complex fixture derived with no filter satisfies
the symmetry predicate at its own fuel level. -/
theorem c6_amended_symmetry_witness :
    symMaps 3
      ((schemaFromStruct 3 none ncType).getD ([], .mk ncType [], none)).1
      (GenMetaResource.schema
        ((schemaFromStruct 3 none ncType).getD ([], .mk ncType [], none)).2.1)
      = true :=
  c6_amended_symmetry 3 none (fun _ hg => nomatch hg) ncType _ _ rfl

/-! ## Ordering of the expand-emitter output -/

/-- b begins with the segment pre. -/
def startsWith (b pre : GoStr) : Prop := ∃ t, b = pre ++ t

/-- The text opening the expand function emitted for a metadata
resource: expandFprint always writes this before anything else of that
function. -/
def funcHeader (m : GenMetaResource) : GoStr :=
  str "func expand" ++ title (goTypeName m.type) ++ str "("

/-- sub is a composite reachable through stored nested metadata,
starting from the entries of a metadata map. -/
inductive MetaDesc : GenMetaResource → MetaMap → Prop where
  | here : ∀ {em : GenMetaResource} {ms : MetaMap} (k : GoStr)
      (f : StructField), (k, some (f, some em)) ∈ ms → MetaDesc em ms
  | deeper : ∀ {em mid : GenMetaResource} {ms : MetaMap} (k : GoStr)
      (f : StructField), (k, some (f, some mid)) ∈ ms →
      MetaDesc em mid.schema → MetaDesc em ms

theorem startsWith_refl (b : GoStr) : startsWith b b :=
  ⟨[], (List.append_nil b).symm⟩

theorem startsWith_trans {b m x : GoStr} (h1 : startsWith b m)
    (h2 : startsWith m x) : startsWith b x := by
  obtain ⟨t1, h1⟩ := h1
  obtain ⟨t2, h2⟩ := h2
  exact ⟨t2 ++ t1, by rw [h1, h2, List.append_assoc]⟩

/-- Writes only append to the emitted text. -/
theorem startsWith_emitS {x : GoStr} (pw : TabPrinter × GoStr) (s : GoStr)
    (h : startsWith pw.2 x) : startsWith (emitS pw s).2 x := by
  obtain ⟨t, ht⟩ := h
  refine ⟨t ++ (pw.1.fprintf s).1, ?_⟩
  show pw.2 ++ (pw.1.fprintf s).1 = x ++ (t ++ (pw.1.fprintf s).1)
  rw [ht, List.append_assoc]

/-- A scan from count zero never leaves zero: closing braces floor
there and anything else keeps it. -/
theorem calcCloseAux_zero (s : GoStr) : calcCloseAux 0 s = 0 := by
  induction s with
  | nil => rfl
  | cons c rest ih =>
    simp only [calcCloseAux]
    split
    · rfl
    · split
      · norm_num
      · exact ih

/-- The first write through a fresh zero-indent printer is emitted
verbatim. -/
theorem emitS_new_zero (s : GoStr) : (emitS (TabPrinter.new 0, []) s).2 = s := by
  simp [emitS, TabPrinter.fprintf, TabPrinter.new, TabPrinter.calcClose,
    calcCloseAux_zero]

/-- The first two writes of expandFprint put the function header at the
very start of the subject's own buffer. -/
theorem funcHeader_emit (m : GenMetaResource) (eft : ExpandFlattenFprintType) :
    startsWith (emitS (TabPrinter.new 0, [])
      (str "func expand" ++ title (goTypeName m.type) ++ str "(d "
        ++ eftString eft ++ str ") " ++ goTypeString m.type ++ str " \x7b\n")).2
      (funcHeader m) := by
  refine ⟨str "d " ++ eftString eft ++ str ") " ++ goTypeString m.type
    ++ str " \x7b\n", ?_⟩
  rw [emitS_new_zero]
  simp only [funcHeader, List.append_assoc]
  rfl

/-- A successful lookup pinpoints a binding of the association list. -/
theorem lookupKey_mem {α : Type} {k : GoStr} {v : α} {m : List (GoStr × α)} :
    lookupKey k m = some v → (k, v) ∈ m := by
  induction m with
  | nil => intro h; cases h
  | cons p t ih =>
    obtain ⟨k', v'⟩ := p
    intro h
    simp only [lookupKey] at h
    split at h
    · cases h
      rename_i hk
      rw [hk]
      exact List.mem_cons_self _ _
    · exact List.mem_cons_of_mem _ (ih h)

/-- Setting the reserved index of the extended slice replaces exactly
the placeholder appended for the subject's own function. -/
theorem set_append_cons {α : Type} (pre : List α) (x y : α) (ext : List α) :
    (pre ++ x :: ext).set pre.length y = pre ++ y :: ext := by
  induction pre with
  | nil => rfl
  | cons a t ih =>
    show a :: ((t ++ x :: ext).set t.length y) = a :: (t ++ y :: ext)
    rw [ih]

/-- The key loop of expandFprint only appends to the subject's own
buffer, and every buffer it appends to the slice belongs to a stored
nested composite (or a deeper one) and starts with that composite's
function header. -/
theorem expandFields_ext (recur : GenMetaResource → List GoStr → Option (List GoStr))
    (ms : MetaMap) (eft : ExpandFlattenFprintType)
    (hrec : ∀ em bufs bufs', recur em bufs = some bufs' →
      ∃ ext, bufs' = bufs ++ ext ∧
        ∀ b ∈ ext, ∃ sub, (sub = em ∨ MetaDesc sub em.schema) ∧
          startsWith b (funcHeader sub)) :
    ∀ (sks : List GoStr) (pb : TabPrinter × GoStr) (bufs : List GoStr)
      (pbF : TabPrinter × GoStr) (bufsF : List GoStr),
    expandFields recur ms eft sks pb bufs = some (pbF, bufsF) →
    startsWith pbF.2 pb.2 ∧
    ∃ ext, bufsF = bufs ++ ext ∧
      ∀ b ∈ ext, ∃ sub, MetaDesc sub ms ∧ startsWith b (funcHeader sub) := by
  intro sks
  induction sks with
  | nil =>
    intro pb bufs pbF bufsF h
    simp only [expandFields, Option.some.injEq, Prod.mk.injEq] at h
    obtain ⟨h1, h2⟩ := h
    subst h1
    subst h2
    exact ⟨startsWith_refl _, [], (List.append_nil _).symm,
      fun b hb => absurd hb (List.not_mem_nil b)⟩
  | cons sk rest ih =>
    intro pb bufs pbF bufsF h
    simp only [expandFields] at h
    repeat' split at h
    all_goals first
      | cases h
      | (obtain ⟨ext₁, hb1, hh1⟩ := hrec _ _ _ (by assumption)
         obtain ⟨hpre, ext₂, hb2, hh2⟩ := ih _ _ _ _ h
         refine ⟨startsWith_trans hpre ?_, ext₁ ++ ext₂, ?_, ?_⟩
         · repeat' apply startsWith_emitS
           exact startsWith_refl _
         · rw [hb2, hb1, List.append_assoc]
         · intro b hb
           rcases List.mem_append.mp hb with h1 | h2
           · obtain ⟨sub, hsub, hpb⟩ := hh1 b h1
             refine ⟨sub, ?_, hpb⟩
             rcases hsub with rfl | hd
             · exact MetaDesc.here _ _ (lookupKey_mem (by assumption))
             · exact MetaDesc.deeper _ _ (lookupKey_mem (by assumption)) hd
           · exact hh2 b h2)
      | (obtain ⟨hpre, ext, hb, hh⟩ := ih _ _ _ _ h
         refine ⟨startsWith_trans hpre ?_, ext, hb, hh⟩
         repeat' apply startsWith_emitS
         exact startsWith_refl _)

/-- C1 (amended): expandFprint appends the subject's own function
buffer first, at the reserved index, and the buffers of its nested
composite dependencies after it: every later buffer belongs to a
composite reachable through the metadata (a dependency is emitted after
the buffer that first uses it, not before — each buffer being
self-contained, callers may join them in any order). -/
theorem c1_expand_ordering (fuel : Nat) :
    ∀ (meta : GenMetaResource) (bufSlice out : List GoStr),
    expandFprint fuel meta bufSlice = some out →
    ∃ own rest, out = bufSlice ++ own :: rest ∧
      startsWith own (funcHeader meta) ∧
      ∀ b ∈ rest, ∃ sub, MetaDesc sub meta.schema ∧
        startsWith b (funcHeader sub) := by
  induction fuel with
  | zero =>
    intro meta bs out h
    simp [expandFprint] at h
  | succ n ih =>
    intro meta bs out h
    have hrec : ∀ em bufs bufs', expandFprint n em bufs = some bufs' →
        ∃ ext, bufs' = bufs ++ ext ∧
          ∀ b ∈ ext, ∃ sub, (sub = em ∨ MetaDesc sub em.schema) ∧
            startsWith b (funcHeader sub) := by
      intro em bufs bufs' hr
      obtain ⟨own, rest, hout, hhd, hrest⟩ := ih em bufs bufs' hr
      refine ⟨own :: rest, hout, ?_⟩
      intro b hb
      rcases List.mem_cons.mp hb with rfl | hmem
      · exact ⟨em, Or.inl rfl, hhd⟩
      · obtain ⟨sub, hs, hp⟩ := hrest b hmem
        exact ⟨sub, Or.inr hs, hp⟩
    simp only [expandFprint] at h
    repeat' split at h
    all_goals cases h
    all_goals
      obtain ⟨hpre, ext, hbufs, hheads⟩ :=
        expandFields_ext _ _ _ hrec _ _ _ _ _ (by assumption)
    all_goals rw [hbufs, List.append_assoc]
    all_goals refine ⟨_, ext, set_append_cons bs [] _ ext, ?_, hheads⟩
    all_goals apply startsWith_emitS
    all_goals apply startsWith_emitS
    all_goals
      exact startsWith_trans hpre (startsWith_emitS _ _ (funcHeader_emit meta _))

/-- The buffer expandFprint emits for the nested-complex fixture's top
level: it calls expandTestNestedBase. -/
def ncExpandCaller : GoStr :=
  str "func expandTestNestedComplex(d *schema.ResourceData) schemagen.TestNestedComplex \x7b\n\tobj := schemagen.TestNestedComplex\x7b\x7d\n\tmNestedComplex := d.Get(\"nested_complex\").([]interface\x7b\x7d)[0].(map[string]interface\x7b\x7d)\n\tobj.NestedComplex = expandTestNestedBase(mNestedComplex)\n\treturn obj\n\x7d"

/-- The buffer defining expandTestNestedBase for the same fixture. -/
def ncExpandCallee : GoStr :=
  str "func expandTestNestedBase(d map[string]interface\x7b\x7d) schemagen.TestNestedBase \x7b\n\tobj := schemagen.TestNestedBase\x7b\x7d\n\tobj.Foo = d[\"foo\"].(string)\n\treturn obj\n\x7d"

/-- C1 counterexample: on the nested-complex fixture the emitter's
output places the buffer that first uses expandTestNestedBase at index
0 and the buffer defining that dependency at index 1 — and the earlier
buffer is not the definition — so the nested composite's expand
function does not precede the function that first uses it. -/
theorem c1_counterexample :
    (schemaFromStruct 3 none ncType).bind (fun r => expandFprint 3 r.2.1 [])
      = some [ncExpandCaller, ncExpandCallee] ∧
    (∃ pre post, ncExpandCaller
      = pre ++ str "expandTestNestedBase(" ++ post) ∧
    ncExpandCallee.take 26 = str "func expandTestNestedBase(" ∧
    ncExpandCaller.take 26 ≠ str "func expandTestNestedBase(" :=
  ⟨rfl,
   ⟨str "func expandTestNestedComplex(d *schema.ResourceData) schemagen.TestNestedComplex \x7b\n\tobj := schemagen.TestNestedComplex\x7b\x7d\n\tmNestedComplex := d.Get(\"nested_complex\").([]interface\x7b\x7d)[0].(map[string]interface\x7b\x7d)\n\tobj.NestedComplex = ",
    str "mNestedComplex)\n\treturn obj\n\x7d", rfl⟩,
   rfl, by decide⟩

/-- The metadata resource derived for the nested-complex fixture. -/
def ncMeta : GenMetaResource :=
  ((schemaFromStruct 3 none ncType).map (fun r => r.2.1)).getD (.mk ncType [])

/-- Witness: the amended ordering at the nested-complex fixture. -/
theorem c1_expand_ordering_witness :
    ∃ own rest,
      (expandFprint 3 ncMeta []).getD [] = [] ++ own :: rest ∧
      startsWith own (funcHeader ncMeta) ∧
      ∀ b ∈ rest, ∃ sub, MetaDesc sub ncMeta.schema ∧
        startsWith b (funcHeader sub) :=
  c1_expand_ordering 3 ncMeta [] ((expandFprint 3 ncMeta []).getD []) rfl
